import Mathlib

/-!
# Verification of the flow-diagram graph store and renderers

Shallow embedding of the `flow-diagram` TypeScript library:

* `src/src/types.ts`   — data model (`Node`, `Edge`, styles, options);
* `src/src/FlowDiagram.ts` — the graph store (`addNode`, `addEdge`,
  `removeNode`, `removeEdge`, `updateNode`, `updateEdge`, layout
  algorithms, `toJSON` / `fromJSON`);
* `src/src/visualizer.ts`  — the SVG renderers (`escapeXml`, the legacy
  `toSVG` variant) over an exact model of JS float arithmetic restricted
  to rational values plus `NaN`/`Infinity`;
* `src/src/helpers.ts` — `parseDiagramData` / `parseTextFormat`.

JavaScript `Map`s are modelled as insertion-ordered association lists
(`Map.set` replaces in place or appends; iteration follows insertion
order), JS numbers as exact rationals where the code only manipulates
values representable exactly, and thrown exceptions as `Except` results
paired with the state the throwing object retains.
-/

namespace FlowSpec

/-! ## Exact JS-number core

Mathlib's `ℚ` normalises through `Nat.gcd`, which is well-founded recursion
the kernel cannot evaluate, so concrete runs of the embedded code could not
be checked by `decide`/`rfl`.  The model therefore uses `JQ`: exact
rationals as unreduced numerator/denominator pairs (denominator kept
positive by every operation; division is only reached behind the zero
guards the embedded code itself performs).  Value equality and order are
the cross-multiplication tests `jqEq`/`jqLt`. -/

structure JQ where
  n : Int
  d : Nat
deriving DecidableEq, Repr

instance : OfNat JQ k := ⟨⟨(k : Int), 1⟩⟩

instance : Add JQ := ⟨fun a b => ⟨a.n * (b.d : Int) + b.n * (a.d : Int), a.d * b.d⟩⟩

instance : Neg JQ := ⟨fun a => ⟨-a.n, a.d⟩⟩

instance : Sub JQ := ⟨fun a b => a + (-b)⟩

instance : Mul JQ := ⟨fun a b => ⟨a.n * b.n, a.d * b.d⟩⟩

instance : Div JQ :=
  ⟨fun a b => ⟨(if b.n < 0 then -a.n else a.n) * (b.d : Int), a.d * b.n.natAbs⟩⟩

/-- Value equality of two `JQ`s (JS `===` on numbers). -/
def jqEq (a b : JQ) : Bool := a.n * (b.d : Int) == b.n * (a.d : Int)

/-- Value order (JS `<`). -/
def jqLt (a b : JQ) : Bool := a.n * (b.d : Int) < b.n * (a.d : Int)

/-! ## JavaScript `Map` model (insertion-ordered association list) -/

/-- `Map.get(k)`: first (and with `Map`-produced lists only) binding of `k`. -/
def mapGet {κ α : Type} [BEq κ] (m : List (κ × α)) (k : κ) : Option α :=
  match m.find? (fun p => p.1 == k) with
  | some p => some p.2
  | none => none

/-- `Map.has(k)`. -/
def mapHas {κ α : Type} [BEq κ] (m : List (κ × α)) (k : κ) : Bool :=
  (mapGet m k).isSome

/-- `Map.set(k, v)`: replaces the binding in place if the key is present,
otherwise appends it (JS `Map` keeps the original insertion position of an
updated key). -/
def mapSet {κ α : Type} [BEq κ] (m : List (κ × α)) (k : κ) (v : α) :
    List (κ × α) :=
  match m with
  | [] => [(k, v)]
  | (k', v') :: rest =>
    if k' == k then (k, v) :: rest else (k', v') :: mapSet rest k v

/-- `Map.delete(k)`: removes the binding for `k` (the first one; `Map`s never
hold duplicate keys). -/
def mapDelete {κ α : Type} [BEq κ] (m : List (κ × α)) (k : κ) :
    List (κ × α) :=
  match m with
  | [] => []
  | (k', v') :: rest =>
    if k' == k then rest else (k', v') :: mapDelete rest k

/-- `Array.from(map.values())`. -/
def mapValues {κ α : Type} (m : List (κ × α)) : List α :=
  m.map Prod.snd

/-! ## Data model (`src/src/types.ts`) -/

/-- `Position` (`types.ts`): JS numbers modelled as exact rationals. -/
structure Position where
  x : JQ
  y : JQ
deriving DecidableEq, Repr

/-- `NodeStyle` (`types.ts`); every field is optional. -/
structure NodeStyle where
  color : Option String := none
  backgroundColor : Option String := none
  borderColor : Option String := none
  borderWidth : Option JQ := none
  borderRadius : Option JQ := none
  fontSize : Option JQ := none
  fontFamily : Option String := none
  width : Option JQ := none
  height : Option JQ := none
deriving DecidableEq, Repr

/-- `EdgeStyle` (`types.ts`). -/
structure EdgeStyle where
  color : Option String := none
  width : Option JQ := none
  style : Option String := none
  arrowSize : Option JQ := none
  label : Option String := none
deriving DecidableEq, Repr

/-- The open attribute bag `Record<string, any>`; never interpreted by the
core, modelled as a string-keyed list of opaque string values. -/
abbrev Bag := List (String × String)

/-- `Node` (`types.ts`). -/
structure Node where
  id : String
  label : String
  type : Option String := none
  position : Option Position := none
  style : Option NodeStyle := none
  data : Option Bag := none
deriving DecidableEq, Repr

/-- `Edge` (`types.ts`). -/
structure Edge where
  id : String
  sourceId : String
  targetId : String
  label : Option String := none
  style : Option EdgeStyle := none
  data : Option Bag := none
deriving DecidableEq, Repr

/-- `FlowDiagramOptions` (`types.ts`). -/
structure FlowDiagramOptions where
  title : Option String := none
  description : Option String := none
  width : Option JQ := none
  height : Option JQ := none
  backgroundColor : Option String := none
  gridSize : Option JQ := none
  snapToGrid : Option Bool := none
deriving DecidableEq, Repr

/-- Argument of `addNode` — `Omit<Node, 'id'>`: a field that is `none` is
absent from the object literal, so the corresponding default survives the
spread `{ id, position: …, type: …, style: {}, data: {}, ...node }`. -/
structure AddNodeArgs where
  label : String
  type : Option String := none
  position : Option Position := none
  style : Option NodeStyle := none
  data : Option Bag := none
deriving DecidableEq, Repr

/-- Argument of `addEdge` — `Omit<Edge, 'id'>`. -/
structure AddEdgeArgs where
  sourceId : String
  targetId : String
  label : Option String := none
  style : Option EdgeStyle := none
  data : Option Bag := none
deriving DecidableEq, Repr

/-- `Partial<Node>` as passed to `updateNode`: a `some` field is a present
property that overwrites the stored one in `{ ...node, ...updates }`. -/
structure PartialNode where
  id : Option String := none
  label : Option String := none
  type : Option String := none
  position : Option Position := none
  style : Option NodeStyle := none
  data : Option Bag := none
deriving DecidableEq, Repr

/-- `Partial<Edge>` as passed to `updateEdge`. -/
structure PartialEdge where
  id : Option String := none
  sourceId : Option String := none
  targetId : Option String := none
  label : Option String := none
  style : Option EdgeStyle := none
  data : Option Bag := none
deriving DecidableEq, Repr

/-! ## The graph store (`src/src/FlowDiagram.ts`) -/

/-- The private state of a `FlowDiagram` instance. -/
structure FlowDiagram where
  nodes : List (String × Node)
  edges : List (String × Edge)
  options : FlowDiagramOptions
  nextNodeId : Nat
  nextEdgeId : Nat
deriving DecidableEq, Repr

/-- Little-endian decimal digits, by fuel-guarded structural recursion (the
kernel cannot reduce Mathlib's well-founded `Nat.digits`; `decDigitsRev n n`
is proved below to equal `Nat.digits 10 n`). -/
def decDigitsRev (fuel n : Nat) : List Nat :=
  match fuel with
  | 0 => []
  | fuel + 1 => if n = 0 then [] else n % 10 :: decDigitsRev fuel (n / 10)

/-- Decimal numeral of a natural number, as produced by JS string
interpolation of a non-negative integer. -/
def natRepr (n : Nat) : String :=
  if n = 0 then "0"
  else String.mk (((decDigitsRev n n).map (fun d => Char.ofNat (d + 48))).reverse)

/-- The id `` `node_${k}` ``. -/
def mkNodeId (k : Nat) : String := "node_" ++ natRepr k

/-- The id `` `edge_${k}` ``. -/
def mkEdgeId (k : Nat) : String := "edge_" ++ natRepr k

/-- The constructor `new FlowDiagram(options)`: spreads the caller's options
over the defaults (a present caller field wins). -/
def newFlowDiagram (options : FlowDiagramOptions) : FlowDiagram where
  nodes := []
  edges := []
  options :=
    { title := some (options.title.getD "Flow Diagram")
      description := options.description
      width := some (options.width.getD 800)
      height := some (options.height.getD 600)
      backgroundColor := some (options.backgroundColor.getD "#ffffff")
      gridSize := some (options.gridSize.getD 20)
      snapToGrid := some (options.snapToGrid.getD true) }
  nextNodeId := 1
  nextEdgeId := 1

/-- `addNode`: builds the node by spreading the arguments over the defaults,
stores it under the fresh id and returns the id. -/
def addNode (d : FlowDiagram) (node : AddNodeArgs) : String × FlowDiagram :=
  let id := mkNodeId d.nextNodeId
  let newNode : Node :=
    { id := id
      label := node.label
      position := some (node.position.getD ⟨0, 0⟩)
      type := some (node.type.getD "default")
      style := some (node.style.getD {})
      data := some (node.data.getD []) }
  (id, { d with nodes := mapSet d.nodes id newNode,
                nextNodeId := d.nextNodeId + 1 })

/-- `getNode`. -/
def getNode (d : FlowDiagram) (id : String) : Option Node :=
  mapGet d.nodes id

/-- `{ ...node, ...updates }`. -/
def mergeNode (n : Node) (u : PartialNode) : Node where
  id := u.id.getD n.id
  label := u.label.getD n.label
  type := u.type.or n.type
  position := u.position.or n.position
  style := u.style.or n.style
  data := u.data.or n.data

/-- `updateNode`: shallow-merges the given fields over the existing node;
no-op returning `false` when the id is unknown. -/
def updateNode (d : FlowDiagram) (id : String) (updates : PartialNode) :
    Bool × FlowDiagram :=
  match mapGet d.nodes id with
  | none => (false, d)
  | some node =>
    (true, { d with nodes := mapSet d.nodes id (mergeNode node updates) })

/-- `removeNode`: deletes the node and — by collecting the ids of every edge
value whose source or target equals it and deleting those keys — every edge
touching it. -/
def removeNode (d : FlowDiagram) (id : String) : Bool × FlowDiagram :=
  if mapHas d.nodes id then
    let edgesToRemove :=
      ((mapValues d.edges).filter
        (fun e => e.sourceId == id || e.targetId == id)).map Edge.id
    (true, { d with
              edges := edgesToRemove.foldl (fun es eid => mapDelete es eid) d.edges
              nodes := mapDelete d.nodes id })
  else (false, d)

/-- `getAllNodes`. -/
def getAllNodes (d : FlowDiagram) : List Node := mapValues d.nodes

/-- `addEdge`: the fresh id is interpolated from `this.nextEdgeId++` *before*
the endpoint validation, so the counter advances even when the call throws;
the edge is recorded only after both endpoints are found. -/
def addEdge (d : FlowDiagram) (edge : AddEdgeArgs) :
    Except String String × FlowDiagram :=
  let id := mkEdgeId d.nextEdgeId
  let d₁ := { d with nextEdgeId := d.nextEdgeId + 1 }
  let newEdge : Edge :=
    { id := id
      sourceId := edge.sourceId
      targetId := edge.targetId
      label := edge.label
      style := some (edge.style.getD {})
      data := some (edge.data.getD []) }
  if !(mapHas d.nodes edge.sourceId) || !(mapHas d.nodes edge.targetId) then
    (Except.error "Source or target node does not exist", d₁)
  else
    (Except.ok id, { d₁ with edges := mapSet d₁.edges id newEdge })

/-- `getEdge`. -/
def getEdge (d : FlowDiagram) (id : String) : Option Edge :=
  mapGet d.edges id

/-- `{ ...edge, ...updates }`. -/
def mergeEdge (e : Edge) (u : PartialEdge) : Edge where
  id := u.id.getD e.id
  sourceId := u.sourceId.getD e.sourceId
  targetId := u.targetId.getD e.targetId
  label := u.label.or e.label
  style := u.style.or e.style
  data := u.data.or e.data

/-- `updateEdge`. -/
def updateEdge (d : FlowDiagram) (id : String) (updates : PartialEdge) :
    Bool × FlowDiagram :=
  match mapGet d.edges id with
  | none => (false, d)
  | some edge =>
    (true, { d with edges := mapSet d.edges id (mergeEdge edge updates) })

/-- `removeEdge`: `this.edges.delete(id)`. -/
def removeEdge (d : FlowDiagram) (id : String) : Bool × FlowDiagram :=
  (mapHas d.edges id, { d with edges := mapDelete d.edges id })

/-- `getAllEdges`. -/
def getAllEdges (d : FlowDiagram) : List Edge := mapValues d.edges

/-- The body of the `getConnectedNodes` edge loop: appends the resolvable
neighbour(s) contributed by one edge to the (incoming, outgoing) lists. -/
def connectStep (d : FlowDiagram) (nodeId : String)
    (acc : List Node × List Node) (e : Edge) : List Node × List Node :=
  let acc :=
    if e.sourceId == nodeId then
      match mapGet d.nodes e.targetId with
      | some t => (acc.1, acc.2 ++ [t])
      | none => acc
    else acc
  if e.targetId == nodeId then
    match mapGet d.nodes e.sourceId with
    | some s => (acc.1 ++ [s], acc.2)
    | none => acc
  else acc

/-- `getConnectedNodes`: one pass over the edges, appending resolvable
neighbours to the incoming/outgoing lists. -/
def getConnectedNodes (d : FlowDiagram) (nodeId : String) :
    List Node × List Node :=
  (mapValues d.edges).foldl (connectStep d nodeId) ([], [])

/-- `getNodeEdges`. -/
def getNodeEdges (d : FlowDiagram) (nodeId : String) : List Edge :=
  (mapValues d.edges).filter
    (fun e => e.sourceId == nodeId || e.targetId == nodeId)

/-! ### Serialization (`toJSON` / `fromJSON`) -/

/-- The snapshot produced by `toJSON`. -/
structure Snapshot where
  options : FlowDiagramOptions
  nodes : List Node
  edges : List Edge
deriving DecidableEq, Repr

/-- `toJSON`. -/
def toJSON (d : FlowDiagram) : Snapshot where
  options := d.options
  nodes := mapValues d.nodes
  edges := mapValues d.edges

/-- `fromJSON`: constructs an empty store from the saved options (both id
counters restart at 1) and re-inserts nodes and edges keyed by their `id`
fields, bypassing every validation. -/
def fromJSON (data : Snapshot) : FlowDiagram :=
  let d := newFlowDiagram data.options
  let d := { d with
    nodes := data.nodes.foldl (fun m (n : Node) => mapSet m n.id n) d.nodes }
  { d with
    edges := data.edges.foldl (fun m (e : Edge) => mapSet m e.id e) d.edges }

/-- `nodeCount`. -/
def nodeCount (d : FlowDiagram) : Nat := d.nodes.length

/-- `edgeCount`. -/
def edgeCount (d : FlowDiagram) : Nat := d.edges.length

/-! ## Operation sequences through the store API

The add/remove mutators of the public API (field updates and snapshot
reconstruction are separate entry points).  A failed `addEdge` throws in the
source; the store object nevertheless retains the already-incremented edge
counter, which `addEdge` models by returning the post-call state in both
cases. -/

/-- One add/remove store operation. -/
inductive Op where
  | addNode (args : AddNodeArgs)
  | addEdge (args : AddEdgeArgs)
  | removeNode (id : String)
  | removeEdge (id : String)
deriving DecidableEq, Repr

/-- The state after one operation (return values discarded). -/
def applyOp (d : FlowDiagram) : Op → FlowDiagram
  | .addNode args => (addNode d args).2
  | .addEdge args => (addEdge d args).2
  | .removeNode id => (removeNode d id).2
  | .removeEdge id => (removeEdge d id).2

/-- The state after a sequence of operations. -/
def applyOps (d : FlowDiagram) (ops : List Op) : FlowDiagram :=
  ops.foldl applyOp d

/-- The state reached from a fresh store together with every node id and
every edge id the trace has handed out (an edge id is consumed from the
counter even by a failing `addEdge`). -/
def runTrace (options : FlowDiagramOptions) (ops : List Op) :
    FlowDiagram × List String × List String :=
  ops.foldl
    (fun (acc : FlowDiagram × List String × List String) op =>
      match op with
      | .addNode args =>
        let (i, d') := addNode acc.1 args
        (d', acc.2.1 ++ [i], acc.2.2)
      | .addEdge args =>
        ((addEdge acc.1 args).2, acc.2.1, acc.2.2 ++ [mkEdgeId acc.1.nextEdgeId])
      | .removeNode id => ((removeNode acc.1 id).2, acc.2)
      | .removeEdge id => ((removeEdge acc.1 id).2, acc.2))
    (newFlowDiagram options, [], [])

/-- Decidable referential-integrity check: every stored edge's endpoints
resolve to currently-present nodes. -/
def refIntegrity (d : FlowDiagram) : Bool :=
  d.edges.all (fun p => mapHas d.nodes p.2.sourceId && mapHas d.nodes p.2.targetId)

/-! ## Layout engine (`FlowDiagram.hierarchicalLayout`)

Only the hierarchical algorithm is embedded (the circular and grid variants
are not touched by any claim).  The BFS queue holds `(node, level)` records
exactly as the source's `queue` does; `visited` is the `Set<string>` (only
membership is ever queried) and `levels` the `Map<string, number>`. -/

/-- `this.options.width || 800` — JS `||` also replaces an explicit `0`. -/
def jsOrQ (x : Option JQ) (dflt : JQ) : JQ :=
  match x with
  | some q => if q.n = 0 then dflt else q
  | none => dflt

/-- The BFS while-loop of `hierarchicalLayout`: pops the head, skips visited
ids, otherwise records the level and enqueues the not-yet-visited outgoing
neighbours at `level + 1`. -/
def levelsBFS (d : FlowDiagram) (visited : List String)
    (levels : List (String × Nat)) (queue : List (Node × Nat)) :
    List (String × Nat) :=
  match queue with
  | [] => levels
  | (node, level) :: rest =>
    if visited.contains node.id then levelsBFS d visited levels rest
    else
      let visited' := node.id :: visited
      let levels' := mapSet levels node.id level
      let children := (getConnectedNodes d node.id).2
      let queue' := rest ++
        (children.filter (fun c => !(visited'.contains c.id))).map
          (fun c => (c, level + 1))
      levelsBFS d visited' levels' queue'
termination_by
  (((d.nodes.map (fun p => Node.id p.2) ++
      queue.map (fun q => Node.id q.1)).toFinset \ visited.toFinset).card,
   queue.length)
decreasing_by
  · -- already-visited head: the unvisited id set is unchanged, the queue shrinks
    rename_i hvis
    have hset :
        (d.nodes.map (fun p => Node.id p.2) ++
            rest.map (fun q => Node.id q.1)).toFinset \ visited.toFinset =
        (d.nodes.map (fun p => Node.id p.2) ++
            ((node, level) :: rest).map (fun q => Node.id q.1)).toFinset \
          visited.toFinset := by
      ext x
      simp only [Finset.mem_sdiff, List.mem_toFinset, List.mem_append,
        List.map_cons, List.mem_cons, List.mem_map]
      constructor
      · rintro ⟨hx, hnv⟩
        exact ⟨hx.elim Or.inl (fun h => Or.inr (Or.inr h)), hnv⟩
      · rintro ⟨hx, hnv⟩
        refine ⟨?_, hnv⟩
        rcases hx with h | h | h
        · exact Or.inl h
        · exact absurd (h ▸ (List.elem_iff.mp hvis)) hnv
        · exact Or.inr h
    rw [hset]
    exact Prod.Lex.right _ (Nat.lt_succ_self _)
  · -- fresh head: one more id becomes visited, so the unvisited id set shrinks
    rename_i hvis
    apply Prod.Lex.left
    have hmemGet : ∀ (k : String) (v : Node), mapGet d.nodes k = some v →
        v ∈ mapValues d.nodes := by
      intro k v h
      unfold mapGet at h
      cases hf : List.find? (fun p => p.1 == k) d.nodes with
      | none => rw [hf] at h; exact absurd h (by simp)
      | some p =>
        rw [hf] at h
        have hp := List.mem_of_find?_eq_some hf
        cases h
        exact List.mem_map.mpr ⟨p, hp, rfl⟩
    have hstep : ∀ (e : Edge) (acc : List Node × List Node),
        (∀ x ∈ acc.2, x ∈ mapValues d.nodes) →
        ∀ y ∈ (connectStep d node.id acc e).2, y ∈ mapValues d.nodes := by
      intro e acc hacc y hy
      unfold connectStep at hy
      rcases hgt : mapGet d.nodes e.targetId with _ | t <;>
        rcases hgs : mapGet d.nodes e.sourceId with _ | s <;>
          rw [hgt, hgs] at hy <;>
            dsimp only at hy <;>
              split_ifs at hy <;>
                first
                  | exact hacc y hy
                  | (rcases List.mem_append.mp hy with h | h
                     · exact hacc y h
                     · rcases List.mem_singleton.mp h with rfl
                       exact hmemGet _ _ hgt)
    have hout : ∀ x ∈ (getConnectedNodes d node.id).2, x ∈ mapValues d.nodes := by
      unfold getConnectedNodes
      have haux : ∀ (es : List Edge) (acc : List Node × List Node),
          (∀ x ∈ acc.2, x ∈ mapValues d.nodes) →
          ∀ x ∈ (es.foldl (connectStep d node.id) acc).2,
            x ∈ mapValues d.nodes := by
        intro es
        induction es with
        | nil => intro acc hacc x hx; exact hacc x hx
        | cons e es ih =>
          intro acc hacc x hx
          exact ih _ (hstep e acc hacc) x hx
      exact haux _ _ (by intro x hx; simp at hx)
    have hnv : node.id ∉ visited := fun h =>
      hvis (List.elem_iff.mpr h)
    apply Finset.card_lt_card
    constructor
    · intro x hx
      have hx' := Finset.mem_sdiff.mp hx
      rcases hx' with ⟨hin, hout'⟩
      have hxcons : x ∉ (node.id :: visited) := by
        intro h; exact hout' (List.mem_toFinset.mpr h)
      have hxne : x ≠ node.id := fun h => hxcons (h ▸ List.mem_cons_self _ _)
      have hxnv : x ∉ visited := fun h => hxcons (List.mem_cons_of_mem _ h)
      refine Finset.mem_sdiff.mpr ⟨?_, by simpa using hxnv⟩
      simp only [List.mem_toFinset, List.mem_append, List.mem_map,
        List.mem_cons] at hin ⊢
      rcases hin with h | ⟨q, hq, rfl⟩
      · exact Or.inl h
      · rcases hq with h | ⟨c, hc, rfl⟩
        · exact Or.inr ⟨q, Or.inr h, rfl⟩
        · have := hout c (List.mem_filter.mp hc).1
          rcases List.mem_map.mp this with ⟨p, hp, hpc⟩
          exact Or.inl ⟨p, hp, by simpa using congrArg Node.id hpc⟩
    · intro hsub
      have hmem : node.id ∈ (d.nodes.map (fun p => Node.id p.2) ++
          ((node, level) :: rest).map (fun q => Node.id q.1)).toFinset \
            visited.toFinset := by
        refine Finset.mem_sdiff.mpr ⟨?_, by simpa using hnv⟩
        refine List.mem_toFinset.mpr (List.mem_append.mpr (Or.inr ?_))
        exact List.mem_map.mpr ⟨(node, level), List.mem_cons_self _ _, rfl⟩
      have := Finset.mem_sdiff.mp (hsub hmem)
      exact this.2 (by simp)

/-- The levels map the hierarchical layout computes: roots are the nodes with
no incoming edge; BFS starts from all roots at level 0. -/
def hierarchicalLevels (d : FlowDiagram) : List (String × Nat) :=
  let nodes := getAllNodes d
  let rootNodes := nodes.filter
    (fun n => !((getNodeEdges d n.id).any (fun e => e.targetId == n.id)))
  levelsBFS d [] [] (rootNodes.map (fun n => (n, 0)))

/-- The `levelGroups` map: nodes grouped by assigned level (`levels.get(id)
|| 0`), keyed by level in first-encounter order. -/
def levelGroups (d : FlowDiagram) (levels : List (String × Nat))
    (nodes : List Node) : List (Nat × List Node) :=
  nodes.foldl
    (fun gs n =>
      let lv := (mapGet levels n.id).getD 0
      match mapGet gs lv with
      | some g => mapSet gs lv (g ++ [n])
      | none => mapSet gs lv [n])
    []

/-- `hierarchicalLayout`: positions every node from its level group —
`y = level·150 + 50`, `x = (index − (len−1)/2)·200 + (width || 800)/2`. -/
def hierarchicalLayout (d : FlowDiagram) : FlowDiagram :=
  let nodes := getAllNodes d
  let levels := hierarchicalLevels d
  let groups := levelGroups d levels nodes
  groups.foldl
    (fun d (g : Nat × List Node) =>
      let y : JQ := (⟨(g.1 : Int), 1⟩ : JQ) * 150 + 50
      (g.2.enum).foldl
        (fun d (p : Nat × Node) =>
          let x : JQ := ((⟨(p.1 : Int), 1⟩ : JQ) - ((⟨(g.2.length : Int), 1⟩ : JQ) - 1) / 2) * 200 +
            jsOrQ d.options.width 800 / 2
          (updateNode d p.2.id { position := some ⟨x, y⟩ }).2)
        d)
    d

/-- `autoLayout('hierarchical')` (the default): no-op on an empty diagram. -/
def autoLayout (d : FlowDiagram) : FlowDiagram :=
  if (getAllNodes d).isEmpty then d else hierarchicalLayout d

/-! ## JS number model for the renderer (`src/src/visualizer.ts`)

The store and layout only ever hold exactly-representable values, so they
use `ℚ` directly.  The SVG edge routing, however, divides by a vector
length that can be zero, so its arithmetic is carried out in `JsNum`:
IEEE-754 special-value behaviour over an exact rational core.  `Math.sqrt`
is modelled exactly on rationals with rational square roots; an irrational
result is outside the exact model and collapsed to `nan` (every square root
the theorems below evaluate is of `0` or a perfect square). -/

inductive JsNum where
  | num (q : JQ)
  | inf (pos : Bool)
  | nan
deriving DecidableEq, Repr

/-- JS `+`. -/
def jadd : JsNum → JsNum → JsNum
  | .nan, _ => .nan
  | _, .nan => .nan
  | .num a, .num b => .num (a + b)
  | .inf p, .num _ => .inf p
  | .num _, .inf p => .inf p
  | .inf p, .inf q => if p = q then .inf p else .nan

/-- JS unary `-`. -/
def jneg : JsNum → JsNum
  | .nan => .nan
  | .inf p => .inf (!p)
  | .num a => .num (-a)

/-- JS `-`. -/
def jsub (a b : JsNum) : JsNum := jadd a (jneg b)

/-- JS `*`. -/
def jmul : JsNum → JsNum → JsNum
  | .nan, _ => .nan
  | _, .nan => .nan
  | .num a, .num b => .num (a * b)
  | .inf p, .num b =>
    if b.n = 0 then .nan else .inf (p = (0 < b.n))
  | .num a, .inf p =>
    if a.n = 0 then .nan else .inf (p = (0 < a.n))
  | .inf p, .inf q => .inf (p = q)

/-- JS `/` (signed zeros are not modelled; no evaluated code path divides a
nonzero value by a negative zero). -/
def jdiv : JsNum → JsNum → JsNum
  | .nan, _ => .nan
  | _, .nan => .nan
  | .num a, .num b =>
    if b.n = 0 then (if a.n = 0 then .nan else .inf (0 < a.n))
    else .num (a / b)
  | .num _, .inf _ => .num 0
  | .inf p, .num b => if b.n = 0 then .inf p else .inf (p = (0 < b.n))
  | .inf _, .inf _ => .nan

/-- Exact natural square root, when it exists. -/
def natSqrtExact (n : Nat) : Option Nat :=
  let r := Nat.sqrt n
  if r * r = n then some r else none

/-- `Math.sqrt` (see the section comment for the model boundary). -/
def jsqrt : JsNum → JsNum
  | .nan => .nan
  | .inf p => if p then .inf true else .nan
  | .num q =>
    if q.n < 0 then .nan
    else
      match natSqrtExact q.n.toNat, natSqrtExact q.d with
      | some a, some b => .num ⟨(a : Int), b⟩
      | _, _ => .nan

/-- Digits of the terminating decimal expansion of `r/den` (`none` when the
expansion does not terminate within the fuel — JS would print a rounded
float; no value the theorems evaluate is of that kind). -/
def fracDigits (fuel : Nat) (r den : Nat) : Option (List Char) :=
  match fuel with
  | 0 => none
  | fuel + 1 =>
    if r = 0 then some []
    else
      (fracDigits fuel (r * 10 % den) den).map
        (fun cs => Char.ofNat (r * 10 / den + 48) :: cs)

/-- JS string interpolation of a finite number. -/
def ratToString (q : JQ) : String :=
  let sign := if q.n < 0 then "-" else ""
  let n := q.n.natAbs
  match fracDigits 64 (n % q.d) q.d with
  | some [] => sign ++ natRepr (n / q.d)
  | some cs => sign ++ natRepr (n / q.d) ++ "." ++ String.mk cs
  | none => sign ++ natRepr (n / q.d) ++ ".(nonterminating)"

/-- JS string interpolation of a number. -/
def jsNumToString : JsNum → String
  | .nan => "NaN"
  | .inf true => "Infinity"
  | .inf false => "-Infinity"
  | .num q => ratToString q

/-! ## The visualizer (`src/src/visualizer.ts`) -/

/-- `VisualizationOptions` (`types.ts`). -/
structure VisualizationOptions where
  format : String
  theme : Option String := none
  layout : Option String := none
  showLabels : Option Bool := none
  showGrid : Option Bool := none
deriving DecidableEq, Repr

/-- `x || dflt` on an optional string (`""` is falsy). -/
def jsOrStr (x : Option String) (dflt : String) : String :=
  match x with
  | some s => if s = "" then dflt else s
  | none => dflt

/-- `String.replace(/c/g, r)` for a single-character pattern. -/
def replaceChar (s : String) (c : Char) (r : String) : String :=
  String.mk (s.data.flatMap (fun ch => if ch = c then r.data else [ch]))

/-- `escapeXml` (current visualizer variant): the five chained global
replaces, `&` first. -/
def escapeXml (text : String) : String :=
  replaceChar
    (replaceChar
      (replaceChar
        (replaceChar
          (replaceChar text '&' "&amp;")
          '<' "&lt;")
        '>' "&gt;")
      '"' "&quot;")
    '\'' "&apos;"

/-- Per-character escaping table; the chained replaces of `escapeXml` are
proved below to act like one pass of this map. -/
def escChar (c : Char) : List Char :=
  if c = '&' then "&amp;".data
  else if c = '<' then "&lt;".data
  else if c = '>' then "&gt;".data
  else if c = '"' then "&quot;".data
  else if c = '\'' then "&apos;".data
  else [c]

/-- The tick positions of `for (let x = 0; x < limit; x += step)`. -/
def gridTicks (limit step : Nat) : List Nat :=
  (List.range ((limit + step - 1) / step)).map (· * step)

/-- The markup one edge contributes in the legacy `toSVG` (`visualizer.ts`,
first variant, lines 56–94): straight segment, arrowhead from the unit
direction vector `d/length` with `length = √(dx²+dy²)`, optional raw
(unescaped) label at the midpoint.  Skipped entirely unless both endpoints
resolve and carry positions. -/
def legacyEdgeSVG (d : FlowDiagram) (edgeColor textColor : String)
    (showLabels : Option Bool) (e : Edge) : String :=
  match getNode d e.sourceId, getNode d e.targetId with
  | some sourceNode, some targetNode =>
    match sourceNode.position, targetNode.position with
    | some p1, some p2 =>
      let x1 := JsNum.num p1.x
      let y1 := JsNum.num p1.y
      let x2 := JsNum.num p2.x
      let y2 := JsNum.num p2.y
      let dx := jsub x2 x1
      let dy := jsub y2 y1
      let length := jsqrt (jadd (jmul dx dx) (jmul dy dy))
      let unitX := jdiv dx length
      let unitY := jdiv dy length
      let arrowSize := JsNum.num (jsOrQ (e.style.bind EdgeStyle.arrowSize) 10)
      let half := jmul arrowSize (JsNum.num ⟨1, 2⟩)
      let arrowX1 := jadd (jsub x2 (jmul arrowSize unitX)) (jmul half unitY)
      let arrowY1 := jsub (jsub y2 (jmul arrowSize unitY)) (jmul half unitX)
      let arrowX2 := jsub (jsub x2 (jmul arrowSize unitX)) (jmul half unitY)
      let arrowY2 := jadd (jsub y2 (jmul arrowSize unitY)) (jmul half unitX)
      let strokeColor := jsOrStr (e.style.bind EdgeStyle.color) edgeColor
      let strokeWidth := ratToString (jsOrQ (e.style.bind EdgeStyle.width) 2)
      let line :=
        "<line x1=\"" ++ jsNumToString x1 ++ "\" y1=\"" ++ jsNumToString y1 ++
        "\" x2=\"" ++ jsNumToString x2 ++ "\" y2=\"" ++ jsNumToString y2 ++
        "\" \n                stroke=\"" ++ strokeColor ++
        "\" \n                stroke-width=\"" ++ strokeWidth ++ "\"/>"
      let polygon :=
        "<polygon points=\"" ++ jsNumToString x2 ++ "," ++ jsNumToString y2 ++
        " " ++ jsNumToString arrowX1 ++ "," ++ jsNumToString arrowY1 ++
        " " ++ jsNumToString arrowX2 ++ "," ++ jsNumToString arrowY2 ++
        "\" \n                fill=\"" ++ strokeColor ++ "\"/>"
      let labelPart :=
        match e.label with
        | some lbl =>
          if lbl ≠ "" ∧ showLabels ≠ some false then
            let labelX := jdiv (jadd x1 x2) (JsNum.num 2)
            let labelY := jdiv (jadd y1 y2) (JsNum.num 2)
            "<text x=\"" ++ jsNumToString labelX ++ "\" y=\"" ++
            jsNumToString labelY ++ "\" text-anchor=\"middle\" \n                  fill=\"" ++
            textColor ++ "\" font-size=\"12\">" ++ lbl ++ "</text>"
          else ""
        | none => ""
      line ++ polygon ++ labelPart
    | _, _ => ""
  | _, _ => ""

/-- The markup one node contributes in the legacy `toSVG` (lines 97–127):
rounded rectangle plus — when labels are on — a single text element whose
content is the **raw, unescaped** label. -/
def legacyNodeSVG (nodeColor edgeColor textColor : String)
    (showLabels : Option Bool) (n : Node) : String :=
  match n.position with
  | none => ""
  | some pos =>
    let x := pos.x
    let y := pos.y
    let nodeWidth := jsOrQ (n.style.bind NodeStyle.width) 100
    let nodeHeight := jsOrQ (n.style.bind NodeStyle.height) 50
    let rx := jsOrQ (n.style.bind NodeStyle.borderRadius) 5
    let fillColor := jsOrStr (n.style.bind NodeStyle.backgroundColor) nodeColor
    let strokeColor := jsOrStr (n.style.bind NodeStyle.borderColor) edgeColor
    let strokeWidth := jsOrQ (n.style.bind NodeStyle.borderWidth) 2
    let rect :=
      "<rect x=\"" ++ ratToString (x - nodeWidth / 2) ++ "\" y=\"" ++
      ratToString (y - nodeHeight / 2) ++
      "\" \n              width=\"" ++ ratToString nodeWidth ++
      "\" height=\"" ++ ratToString nodeHeight ++
      "\" \n              rx=\"" ++ ratToString rx ++ "\" ry=\"" ++ ratToString rx ++
      "\"\n              fill=\"" ++ fillColor ++
      "\" \n              stroke=\"" ++ strokeColor ++
      "\" \n              stroke-width=\"" ++ ratToString strokeWidth ++ "\"/>"
    let labelPart :=
      if showLabels ≠ some false then
        let fontSize := jsOrQ (n.style.bind NodeStyle.fontSize) 14
        let fontFamily := jsOrStr (n.style.bind NodeStyle.fontFamily) "Arial, sans-serif"
        "<text x=\"" ++ ratToString x ++ "\" y=\"" ++ ratToString (y + 5) ++
        "\" text-anchor=\"middle\" \n                fill=\"" ++
        jsOrStr (n.style.bind NodeStyle.color) textColor ++
        "\" \n                font-size=\"" ++ ratToString fontSize ++
        "\" \n                font-family=\"" ++ fontFamily ++ "\">" ++
        n.label ++ "</text>"
      else ""
    rect ++ labelPart

/-- The legacy `toSVG` (`visualizer.ts`, first variant, lines 29–131): fixed
800×600 canvas, theme colors, optional grid, edges before nodes.  Labels are
embedded without `escapeXml`. -/
def legacyToSVG (d : FlowDiagram) (options : VisualizationOptions) : String :=
  let nodes := getAllNodes d
  let edges := getAllEdges d
  let theme := jsOrStr options.theme "light"
  let bgColor := if theme = "dark" then "#1a1a1a" else "#ffffff"
  let textColor := if theme = "dark" then "#ffffff" else "#000000"
  let nodeColor := if theme = "dark" then "#2d2d2d" else "#f0f0f0"
  let edgeColor := if theme = "dark" then "#666666" else "#333333"
  let gridColor := if theme = "dark" then "#333" else "#ddd"
  let svg :=
    "<svg width=\"800\" height=\"600\" xmlns=\"http://www.w3.org/2000/svg\">" ++
    "<rect width=\"100%\" height=\"100%\" fill=\"" ++ bgColor ++ "\"/>"
  let svg :=
    if options.showGrid = some true then
      let vlines := (gridTicks 800 20).foldl
        (fun s x => s ++ "<line x1=\"" ++ natRepr x ++ "\" y1=\"0\" x2=\"" ++
          natRepr x ++ "\" y2=\"600\" stroke=\"" ++ gridColor ++
          "\" stroke-width=\"1\"/>") svg
      (gridTicks 600 20).foldl
        (fun s y => s ++ "<line x1=\"0\" y1=\"" ++ natRepr y ++
          "\" x2=\"800\" y2=\"" ++ natRepr y ++ "\" stroke=\"" ++ gridColor ++
          "\" stroke-width=\"1\"/>") vlines
    else svg
  let svg := edges.foldl
    (fun s e => s ++ legacyEdgeSVG d edgeColor textColor options.showLabels e) svg
  let svg := nodes.foldl
    (fun s n => s ++ legacyNodeSVG nodeColor edgeColor textColor options.showLabels n) svg
  svg ++ "</svg>"

/-! ## `FlowDiagramHelpers.parseDiagramData` (`src/src/helpers.ts`)

`JSON.parse` is a platform builtin; it is modelled by a small complete JSON
parser (null/booleans/numbers/strings with escapes/arrays/objects).  The
recursion is by fuel `2·|input| + 2`, which exceeds the nesting depth plus
element count of any input of that length, so the fuel never runs out. -/

inductive Json where
  | null
  | bool (b : Bool)
  | num (q : JQ)
  | str (s : String)
  | arr (elems : List Json)
  | obj (fields : List (String × Json))
deriving Repr

/-- JSON insignificant whitespace. -/
def isJsonWs (c : Char) : Bool :=
  c = ' ' || c = '\t' || c = '\n' || c = '\r'

/-- Skip whitespace. -/
def skipWs : List Char → List Char
  | [] => []
  | c :: cs => if isJsonWs c then skipWs cs else c :: cs

/-- Hex digit value. -/
def hexVal (c : Char) : Option Nat :=
  if '0' ≤ c ∧ c ≤ '9' then some (c.toNat - 48)
  else if 'a' ≤ c ∧ c ≤ 'f' then some (c.toNat - 87)
  else if 'A' ≤ c ∧ c ≤ 'F' then some (c.toNat - 55)
  else none

/-- The body of a JSON string literal (opening quote already consumed). -/
def parseJsonString : List Char → Option (List Char × List Char)
  | [] => none
  | '"' :: cs => some ([], cs)
  | '\\' :: e :: cs =>
    match e with
    | '"' => (parseJsonString cs).map (fun p => ('"' :: p.1, p.2))
    | '\\' => (parseJsonString cs).map (fun p => ('\\' :: p.1, p.2))
    | '/' => (parseJsonString cs).map (fun p => ('/' :: p.1, p.2))
    | 'b' => (parseJsonString cs).map (fun p => ('\x08' :: p.1, p.2))
    | 'f' => (parseJsonString cs).map (fun p => ('\x0c' :: p.1, p.2))
    | 'n' => (parseJsonString cs).map (fun p => ('\n' :: p.1, p.2))
    | 'r' => (parseJsonString cs).map (fun p => ('\r' :: p.1, p.2))
    | 't' => (parseJsonString cs).map (fun p => ('\t' :: p.1, p.2))
    | 'u' =>
      match cs with
      | a :: b :: c :: d :: cs' =>
        match hexVal a, hexVal b, hexVal c, hexVal d with
        | some w, some x, some y, some z =>
          (parseJsonString cs').map
            (fun p => (Char.ofNat (((w * 16 + x) * 16 + y) * 16 + z) :: p.1, p.2))
        | _, _, _, _ => none
      | _ => none
    | _ => none
  | c :: cs =>
    if c.toNat < 32 then none
    else (parseJsonString cs).map (fun p => (c :: p.1, p.2))

/-- A nonempty digit run. -/
def parseDigits : List Char → Option (List Char × List Char)
  | [] => none
  | c :: cs =>
    if c.isDigit then
      match parseDigits cs with
      | some (ds, rest) => some (c :: ds, rest)
      | none => some ([c], cs)
    else none

/-- Numeric value of a digit run. -/
def digitsToNat (ds : List Char) : Nat :=
  ds.foldl (fun n c => n * 10 + (c.toNat - 48)) 0

/-- A JSON number (`-?int(.frac)?([eE][+-]?digits)?`, no leading zeros). -/
def parseJsonNumber (cs : List Char) : Option (JQ × List Char) := do
  let (neg, cs) := match cs with
    | '-' :: cs' => (true, cs')
    | _ => (false, cs)
  let (ints, cs) ← parseDigits cs
  if ints.length > 1 ∧ ints.head? = some '0' then none else
  let (frac, cs) ← match cs with
    | '.' :: cs' => (parseDigits cs').map (fun p => (p.1, p.2))
    | _ => some (([] : List Char), cs)
  let (expSign, expDigits, cs) ← match cs with
    | 'e' :: cs' | 'E' :: cs' =>
      match cs' with
      | '+' :: cs'' => (parseDigits cs'').map (fun p => (false, p.1, p.2))
      | '-' :: cs'' => (parseDigits cs'').map (fun p => (true, p.1, p.2))
      | _ => (parseDigits cs').map (fun p => (false, p.1, p.2))
    | _ => some (false, ([] : List Char), cs)
  let mantissa : JQ := (⟨(digitsToNat ints : Int), 1⟩ : JQ) +
    (⟨(digitsToNat frac : Int), 1⟩ : JQ) / ⟨((10 ^ frac.length : Nat) : Int), 1⟩
  let scaled : JQ :=
    if expSign then mantissa / ⟨((10 ^ digitsToNat expDigits : Nat) : Int), 1⟩
    else mantissa * ⟨((10 ^ digitsToNat expDigits : Nat) : Int), 1⟩
  some (if neg then -scaled else scaled, cs)

/-- Check for a literal prefix. -/
def dropPrefixLit : List Char → List Char → Option (List Char)
  | [], cs => some cs
  | _, [] => none
  | l :: ls, c :: cs => if l = c then dropPrefixLit ls cs else none

mutual

/-- One JSON value (leading whitespace already skipped). -/
def parseJsonValue (fuel : Nat) (cs : List Char) : Option (Json × List Char) :=
  match fuel with
  | 0 => none
  | fuel + 1 =>
    match cs with
    | '{' :: cs' =>
      match skipWs cs' with
      | '}' :: rest => some (.obj [], rest)
      | cs'' => (parseJsonMembers fuel cs'').map (fun p => (Json.obj p.1, p.2))
    | '[' :: cs' =>
      match skipWs cs' with
      | ']' :: rest => some (.arr [], rest)
      | cs'' => (parseJsonElements fuel cs'').map (fun p => (Json.arr p.1, p.2))
    | '"' :: cs' =>
      (parseJsonString cs').map (fun p => (Json.str (String.mk p.1), p.2))
    | 't' :: _ => (dropPrefixLit "true".data cs).map (fun r => (Json.bool true, r))
    | 'f' :: _ => (dropPrefixLit "false".data cs).map (fun r => (Json.bool false, r))
    | 'n' :: _ => (dropPrefixLit "null".data cs).map (fun r => (Json.null, r))
    | _ => (parseJsonNumber cs).map (fun p => (Json.num p.1, p.2))

/-- `"key": value` members, at least one, comma separated, ending at `}`. -/
def parseJsonMembers (fuel : Nat) (cs : List Char) :
    Option (List (String × Json) × List Char) :=
  match fuel with
  | 0 => none
  | fuel + 1 =>
    match skipWs cs with
    | '"' :: cs' => do
      let (key, rest) ← parseJsonString cs'
      match skipWs rest with
      | ':' :: rest' => do
        let (v, rest'') ← parseJsonValue fuel (skipWs rest')
        match skipWs rest'' with
        | ',' :: more =>
          (parseJsonMembers fuel more).map
            (fun p => ((String.mk key, v) :: p.1, p.2))
        | '}' :: done => some ([(String.mk key, v)], done)
        | _ => none
      | _ => none
    | _ => none

/-- Array elements, at least one, comma separated, ending at `]`. -/
def parseJsonElements (fuel : Nat) (cs : List Char) :
    Option (List Json × List Char) :=
  match fuel with
  | 0 => none
  | fuel + 1 => do
    let (v, rest) ← parseJsonValue fuel (skipWs cs)
    match skipWs rest with
    | ',' :: more => (parseJsonElements fuel more).map (fun p => (v :: p.1, p.2))
    | ']' :: done => some ([v], done)
    | _ => none

end

/-- `JSON.parse`: the whole input must be one value plus whitespace. -/
def jsonParse (s : String) : Option Json :=
  match parseJsonValue (2 * s.length + 2) (skipWs s.data) with
  | some (v, rest) => if skipWs rest = [] then some v else none
  | none => none

/-- Whether a parsed JSON object has a top-level field. -/
def jsonHasField (j : Json) (k : String) : Bool :=
  match j with
  | .obj fields => fields.any (fun p => p.1 == k)
  | _ => false

/-- Top-level field lookup. -/
def jsonField (j : Json) (k : String) : Option Json :=
  match j with
  | .obj fields => mapGet fields k
  | _ => none

/-- JS `String.prototype.split('\\n')` on the character list. -/
def splitLines : List Char → List (List Char)
  | [] => [[]]
  | c :: cs =>
    if c = '\n' then [] :: splitLines cs
    else
      match splitLines cs with
      | l :: ls => (c :: l) :: ls
      | [] => [[c]]

/-- The whitespace class JS `trim` removes (ASCII portion). -/
def isTrimWs (c : Char) : Bool :=
  c = ' ' || c = '\t' || c = '\n' || c = '\r' || c = '\x0b' || c = '\x0c'

/-- JS `String.prototype.trim`. -/
def jsTrim (l : List Char) : List Char :=
  ((l.dropWhile isTrimWs).reverse.dropWhile isTrimWs).reverse

/-- A node record produced by `parseTextFormat`. -/
structure TextNode where
  id : String
  label : String
  type : String
deriving DecidableEq, Repr

/-- An edge record produced by `parseTextFormat`. -/
structure TextEdge where
  sourceId : String
  targetId : String
  label : Option String
deriving DecidableEq, Repr

/-- `\w` of the node-line regex. -/
def isWordChar (c : Char) : Bool :=
  c.isAlphanum || c = '_'

/-- Match of the node-line regex (dash, space, `(\w+)`, colon-space, lazy
label, optional parenthesised type, end anchor) **at** a given start position:
`- `, then a maximal (backtracked-to-nonempty) word run followed by `: `,
then the shortest label for which the optional ` (type)` suffix (preferred)
or the bare end of line completes the match. -/
def matchNodeAt (cs : List Char) :
    Option (List Char × List Char × Option (List Char)) :=
  match dropPrefixLit "- ".data cs with
  | none => none
  | some rest =>
    let idChars := rest.takeWhile isWordChar
    if idChars.isEmpty then none
    else
      match dropPrefixLit ": ".data (rest.drop idChars.length) with
      | none => none
      | some after =>
        -- `(.+?)` lazily, suffix group greedily preferred over the bare `$`
        (List.range after.length).findSome? (fun i =>
          let lbl := after.take (i + 1)
          let tail := after.drop (i + 1)
          match dropPrefixLit " (".data tail with
          | some inner =>
            if inner.length ≥ 2 ∧ inner.getLast? = some ')' then
              some (idChars, lbl, some (inner.take (inner.length - 1)))
            else if tail = [] then
              some (idChars, lbl, none)
            else none
          | none =>
            if tail = [] then some (idChars, lbl, none)
            else none)

/-- `trimmed.match(nodeLineRegex)`: first position where the pattern matches. -/
def matchNodeLine (t : List Char) :
    Option (List Char × List Char × Option (List Char)) :=
  (List.range t.length).findSome? (fun i => matchNodeAt (t.drop i))

/-- Match of the edge-line regex (dash, space, lazy source, ` -> `, lazy
target, optional parenthesised label, end anchor) at a given start position:
both `(.+?)` groups are lazy, the shorter source split is preferred, and for
each target split the ` (label)` suffix is preferred over the bare `$`. -/
def matchEdgeAt (cs : List Char) :
    Option (List Char × List Char × Option (List Char)) :=
  match dropPrefixLit "- ".data cs with
  | none => none
  | some rest =>
    (List.range rest.length).findSome? (fun i =>
      let src := rest.take (i + 1)
      match dropPrefixLit " -> ".data (rest.drop (i + 1)) with
      | none => none
      | some after =>
        (List.range after.length).findSome? (fun j =>
          let tgt := after.take (j + 1)
          let tail := after.drop (j + 1)
          match dropPrefixLit " (".data tail with
          | some inner =>
            if inner.length ≥ 2 ∧ inner.getLast? = some ')' then
              some (src, tgt, some (inner.take (inner.length - 1)))
            else if tail = [] then some (src, tgt, none)
            else none
          | none =>
            if tail = [] then some (src, tgt, none)
            else none))

/-- First-position search for the edge-line regex. -/
def matchEdgeLine (t : List Char) :
    Option (List Char × List Char × Option (List Char)) :=
  (List.range t.length).findSome? (fun i => matchEdgeAt (t.drop i))

/-- The result of `parseTextFormat`. -/
structure TextParseResult where
  nodes : List TextNode
  edges : List TextEdge
  title : Option String
deriving DecidableEq, Repr

/-- The per-line state machine of `parseTextFormat`. -/
def parseTextLines :
    List (List Char) → Bool → Bool → List (String × String) →
    List TextNode → List TextEdge → List Char → TextParseResult
  | [], _, _, _, nodes, edges, title =>
    { nodes := nodes, edges := edges
      title := if title = [] then none else some (String.mk title) }
  | line :: lines, inNodes, inEdges, nodeMap, nodes, edges, title =>
    let trimmed := jsTrim line
    if List.isPrefixOf "Flow Diagram:".data trimmed then
      parseTextLines lines inNodes inEdges nodeMap nodes edges
        (jsTrim (trimmed.drop "Flow Diagram:".data.length))
    else if trimmed = "Nodes:".data then
      parseTextLines lines true false nodeMap nodes edges title
    else if trimmed = "Edges:".data then
      parseTextLines lines false true nodeMap nodes edges title
    else
      let afterNodes :=
        if inNodes ∧ List.isPrefixOf "-".data trimmed then
          match matchNodeLine trimmed with
          | some (nodeId, label, type) =>
            (mapSet nodeMap (String.mk (jsTrim label)) (String.mk nodeId),
             nodes ++ [{ id := String.mk nodeId
                         label := String.mk (jsTrim label)
                         type := jsOrStr (type.map String.mk) "process" : TextNode }])
          | none => (nodeMap, nodes)
        else (nodeMap, nodes)
      let edges' :=
        if inEdges ∧ List.isPrefixOf "-".data trimmed then
          match matchEdgeLine trimmed with
          | some (sourceLabel, targetLabel, edgeLabel) =>
            edges ++ [{
              sourceId := jsOrStr
                (mapGet afterNodes.1 (String.mk (jsTrim sourceLabel)))
                (String.mk (jsTrim sourceLabel))
              targetId := jsOrStr
                (mapGet afterNodes.1 (String.mk (jsTrim targetLabel)))
                (String.mk (jsTrim targetLabel))
              label := edgeLabel.map String.mk : TextEdge }]
          | none => edges
        else edges
      parseTextLines lines inNodes inEdges afterNodes.1 afterNodes.2 edges' title

/-- `parseTextFormat`. -/
def parseTextFormat (text : String) : TextParseResult :=
  parseTextLines (splitLines text.data) false false [] [] [] []

/-- Bool substring test (`output.includes(pat)`), used only to state
theorems about rendered markup. -/
def containsSub (pat l : List Char) : Bool :=
  (List.range (l.length + 1)).any (fun i => List.isPrefixOf pat (l.drop i))

/-- The two shapes `parseDiagramData` can return for a string input. -/
inductive ParseOut where
  | fromJson (nodes edges options title : Option Json)
  | fromText (r : TextParseResult)
deriving Repr

/-- The requested format argument. -/
inductive ParseFormat where
  | json
  | text
  | auto
deriving DecidableEq, Repr

/-- `parseDiagramData` restricted to string inputs.  In `json`/`auto` mode
the JSON branch returns only when the parse succeeds **and** yields an
object with a `nodes` or `edges` field (the `'nodes' in parsed` test throws
on non-objects, which the surrounding `try` swallows); otherwise control
falls through to the text parser when the format allows, and only failing
that is the explicit error thrown. -/
def parseDiagramData (data : String) (format : ParseFormat) :
    Except String ParseOut :=
  let jsonAttempt :=
    if format = ParseFormat.json ∨ format = ParseFormat.auto then
      match jsonParse data with
      | some parsed =>
        if jsonHasField parsed "nodes" || jsonHasField parsed "edges" then
          some (ParseOut.fromJson (jsonField parsed "nodes")
            (jsonField parsed "edges") (jsonField parsed "options")
            ((jsonField parsed "title").or
              ((jsonField parsed "options").bind (fun o => jsonField o "title"))))
        else none
      | none => none
    else none
  match jsonAttempt with
  | some out => Except.ok out
  | none =>
    if format = ParseFormat.text ∨ format = ParseFormat.auto then
      Except.ok (ParseOut.fromText (parseTextFormat data))
    else
      Except.error
        "Unable to parse diagram data. Expected JSON with nodes/edges or text format."

/-- The full invariant maintained by the store API: referential integrity,
well-keyed duplicate-free maps, and every key below its id counter. -/
structure Invariant (d : FlowDiagram) : Prop where
  edges_src : ∀ p ∈ d.edges, mapHas d.nodes (Edge.sourceId p.2) = true
  edges_tgt : ∀ p ∈ d.edges, mapHas d.nodes (Edge.targetId p.2) = true
  nodes_keyed : ∀ p ∈ d.nodes, p.1 = Node.id p.2
  edges_keyed : ∀ p ∈ d.edges, p.1 = Edge.id p.2
  nodes_nodup : (d.nodes.map Prod.fst).Nodup
  edges_nodup : (d.edges.map Prod.fst).Nodup
  nodes_bound : ∀ p ∈ d.nodes, ∃ k, k < d.nextNodeId ∧ p.1 = mkNodeId k
  edges_bound : ∀ p ∈ d.edges, ∃ k, k < d.nextEdgeId ∧ p.1 = mkEdgeId k

/-- Decidable scanner for "no raw XML specials": `<`, `>`, `"`, `'` may not
occur at all, and `&` may occur only as the start of one of the five
entities `&amp; &lt; &gt; &quot; &apos;` (whose fixed bodies are skipped —
they contain no specials themselves). -/
def escapedOk : List Char → Bool
  | [] => true
  | c :: rest =>
    if c = '<' ∨ c = '>' ∨ c = '"' ∨ c = '\'' then false
    else if c = '&' then
      if rest.take 4 = "amp;".data then escapedOk (rest.drop 4)
      else if rest.take 3 = "lt;".data then escapedOk (rest.drop 3)
      else if rest.take 3 = "gt;".data then escapedOk (rest.drop 3)
      else if rest.take 5 = "quot;".data then escapedOk (rest.drop 5)
      else if rest.take 5 = "apos;".data then escapedOk (rest.drop 5)
      else false
    else escapedOk rest
termination_by l => l.length
decreasing_by
  all_goals simp only [List.length_cons, List.length_drop]
  all_goals omega

/-! ## Lemmas about the `Map` model -/

theorem mapGet_cons {κ α : Type} [BEq κ] [LawfulBEq κ] [DecidableEq κ] (a : κ) (b : α)
    (m : List (κ × α)) (k : κ) :
    mapGet ((a, b) :: m) k = if a = k then some b else mapGet m k := by
  by_cases h : a = k
  · subst h
    simp [mapGet, List.find?_cons_of_pos]
  · have : ((a, b).1 == k) = false := by simpa using h
    simp [mapGet, List.find?_cons_of_neg, this, h]

theorem mapGet_nil {κ α : Type} [BEq κ] (k : κ) :
    mapGet ([] : List (κ × α)) k = none := rfl

theorem mapGet_mapSet {κ α : Type} [BEq κ] [LawfulBEq κ] [DecidableEq κ] (m : List (κ × α))
    (k : κ) (v : α) (k' : κ) :
    mapGet (mapSet m k v) k' = if k = k' then some v else mapGet m k' := by
  induction m with
  | nil =>
    rw [show mapSet ([] : List (κ × α)) k v = [(k, v)] from rfl, mapGet_cons]
  | cons p rest ih =>
    obtain ⟨a, b⟩ := p
    by_cases h : a = k
    · subst h
      rw [show mapSet ((a, b) :: rest) a v = (a, v) :: rest by
        simp [mapSet], mapGet_cons, mapGet_cons]
      by_cases h' : a = k' <;> simp [h']
    · rw [show mapSet ((a, b) :: rest) k v = (a, b) :: mapSet rest k v by
        simp [mapSet, h], mapGet_cons, ih, mapGet_cons]
      by_cases h1 : a = k' <;> by_cases h2 : k = k' <;> simp_all

theorem mapGet_mapDelete_ne {κ α : Type} [BEq κ] [LawfulBEq κ] [DecidableEq κ]
    (m : List (κ × α)) (k k' : κ) (h : k' ≠ k) :
    mapGet (mapDelete m k) k' = mapGet m k' := by
  induction m with
  | nil => rfl
  | cons p rest ih =>
    obtain ⟨a, b⟩ := p
    by_cases ha : a = k
    · subst ha
      rw [show mapDelete ((a, b) :: rest) a = rest by simp [mapDelete],
        mapGet_cons, if_neg (fun hc => h hc.symm)]
    · rw [show mapDelete ((a, b) :: rest) k = (a, b) :: mapDelete rest k by
        simp [mapDelete, ha], mapGet_cons, mapGet_cons, ih]

theorem mapDelete_sublist {κ α : Type} [BEq κ] (m : List (κ × α)) (k : κ) :
    List.Sublist (mapDelete m k) m := by
  induction m with
  | nil => exact List.Sublist.refl _
  | cons p rest ih =>
    obtain ⟨a, b⟩ := p
    unfold mapDelete
    by_cases h : (a == k) = true
    · simp only [h, if_pos]
      exact List.sublist_cons_of_sublist _ (List.Sublist.refl _)
    · simp only [h]
      exact List.Sublist.cons₂ _ ih

theorem mem_of_mem_mapDelete {κ α : Type} [BEq κ] {m : List (κ × α)} {k : κ}
    {p : κ × α} (h : p ∈ mapDelete m k) : p ∈ m :=
  (mapDelete_sublist m k).mem h

theorem mem_mapSet {κ α : Type} [BEq κ] [LawfulBEq κ] [DecidableEq κ] {m : List (κ × α)}
    {k : κ} {v : α} {p : κ × α} (h : p ∈ mapSet m k v) :
    p = (k, v) ∨ p ∈ m := by
  induction m with
  | nil => simpa [mapSet] using h
  | cons q rest ih =>
    obtain ⟨a, b⟩ := q
    by_cases ha : a = k
    · subst ha
      rw [show mapSet ((a, b) :: rest) a v = (a, v) :: rest by simp [mapSet]] at h
      rcases List.mem_cons.mp h with h | h
      · exact Or.inl h
      · exact Or.inr (List.mem_cons_of_mem _ h)
    · rw [show mapSet ((a, b) :: rest) k v = (a, b) :: mapSet rest k v by
        simp [mapSet, ha]] at h
      rcases List.mem_cons.mp h with h | h
      · exact Or.inr (h ▸ List.mem_cons_self _ _)
      · rcases ih h with h | h
        · exact Or.inl h
        · exact Or.inr (List.mem_cons_of_mem _ h)

theorem mapHas_of_mem {κ α : Type} [BEq κ] [LawfulBEq κ] [DecidableEq κ] {m : List (κ × α)}
    {p : κ × α} (h : p ∈ m) : mapHas m p.1 = true := by
  induction m with
  | nil => cases h
  | cons q rest ih =>
    obtain ⟨a, b⟩ := q
    rcases List.mem_cons.mp h with h | h
    · subst h
      simp [mapHas, mapGet_cons]
    · by_cases ha : a = p.1
      · simp [mapHas, mapGet_cons, ha]
      · simpa [mapHas, mapGet_cons, ha] using ih h

theorem mapGet_mem {κ α : Type} [BEq κ] [LawfulBEq κ] [DecidableEq κ] {m : List (κ × α)}
    {k : κ} {v : α} (h : mapGet m k = some v) : (k, v) ∈ m := by
  induction m with
  | nil => simp [mapGet] at h
  | cons q rest ih =>
    obtain ⟨a, b⟩ := q
    rw [mapGet_cons] at h
    by_cases ha : a = k
    · rw [if_pos ha] at h
      cases h
      exact ha ▸ List.mem_cons_self _ _
    · rw [if_neg ha] at h
      exact List.mem_cons_of_mem _ (ih h)

theorem mapGet_eq_none_of_not_mem_keys {κ α : Type} [BEq κ] [LawfulBEq κ] [DecidableEq κ]
    {m : List (κ × α)} {k : κ} (h : k ∉ m.map Prod.fst) :
    mapGet m k = none := by
  cases hg : mapGet m k with
  | none => rfl
  | some v => exact absurd (List.mem_map.mpr ⟨(k, v), mapGet_mem hg, rfl⟩) h

theorem keys_mapSet_of_has {κ α : Type} [BEq κ] [LawfulBEq κ] [DecidableEq κ]
    {m : List (κ × α)} {k : κ} (v : α) (h : mapHas m k = true) :
    (mapSet m k v).map Prod.fst = m.map Prod.fst := by
  induction m with
  | nil => simp [mapHas, mapGet] at h
  | cons q rest ih =>
    obtain ⟨a, b⟩ := q
    by_cases ha : a = k
    · subst ha
      rw [show mapSet ((a, b) :: rest) a v = (a, v) :: rest by simp [mapSet]]
      simp
    · rw [show mapSet ((a, b) :: rest) k v = (a, b) :: mapSet rest k v by
        simp [mapSet, ha]]
      have h' : mapHas rest k = true := by
        simpa [mapHas, mapGet_cons, ha] using h
      simp [ih h']

theorem keys_mapSet_of_not_has {κ α : Type} [BEq κ] [LawfulBEq κ] [DecidableEq κ]
    {m : List (κ × α)} {k : κ} (v : α) (h : mapHas m k = false) :
    (mapSet m k v).map Prod.fst = m.map Prod.fst ++ [k] := by
  induction m with
  | nil => rfl
  | cons q rest ih =>
    obtain ⟨a, b⟩ := q
    by_cases ha : a = k
    · subst ha
      simp [mapHas, mapGet_cons] at h
    · rw [show mapSet ((a, b) :: rest) k v = (a, b) :: mapSet rest k v by
        simp [mapSet, ha]]
      have h' : mapHas rest k = false := by
        simpa [mapHas, mapGet_cons, ha] using h
      simp [ih h']

theorem nodup_keys_mapSet {κ α : Type} [BEq κ] [LawfulBEq κ] [DecidableEq κ]
    {m : List (κ × α)} {k : κ} (v : α) (h : (m.map Prod.fst).Nodup) :
    ((mapSet m k v).map Prod.fst).Nodup := by
  cases hh : mapHas m k with
  | true => rw [keys_mapSet_of_has v hh]; exact h
  | false =>
    rw [keys_mapSet_of_not_has v hh]
    refine List.Nodup.append h (List.nodup_singleton k) ?_
    intro x hx hk
    rcases List.mem_singleton.mp hk with rfl
    rcases List.mem_map.mp hx with ⟨p, hp, rfl⟩
    have := mapHas_of_mem hp
    simp_all

theorem nodup_keys_mapDelete {κ α : Type} [BEq κ] {m : List (κ × α)} {k : κ}
    (h : (m.map Prod.fst).Nodup) : ((mapDelete m k).map Prod.fst).Nodup :=
  ((mapDelete_sublist m k).map Prod.fst).nodup h

theorem foldl_mapDelete_sublist {κ α : Type} [BEq κ] (m : List (κ × α))
    (ids : List κ) :
    List.Sublist (ids.foldl (fun es i => mapDelete es i) m) m := by
  induction ids generalizing m with
  | nil => exact List.Sublist.refl _
  | cons i ids ih =>
    exact List.Sublist.trans (ih (mapDelete m i)) (mapDelete_sublist m i)

theorem foldl_mapDelete_cons_of_not_mem {κ α : Type} [BEq κ] [LawfulBEq κ]
    (p : κ × α) (m : List (κ × α)) (ids : List κ) (h : p.1 ∉ ids) :
    ids.foldl (fun es i => mapDelete es i) (p :: m) =
      p :: ids.foldl (fun es i => mapDelete es i) m := by
  induction ids generalizing m with
  | nil => rfl
  | cons i ids ih =>
    have hne : (p.1 == i) = false := by
      rw [beq_eq_false_iff_ne]
      exact fun hc => h (hc ▸ List.mem_cons_self _ _)
    obtain ⟨a, b⟩ := p
    have hstep : mapDelete ((a, b) :: m) i = (a, b) :: mapDelete m i := by
      simp [mapDelete, hne]
    rw [List.foldl_cons, List.foldl_cons, hstep]
    exact ih (mapDelete m i) (fun hm => h (List.mem_cons_of_mem _ hm))

/-- `removeNode`'s edge pass: deleting, one by one, the ids of the edges a
predicate selects is — on a well-keyed, duplicate-free map — the same as
filtering the selected entries out in place. -/
theorem foldl_mapDelete_eq_filter {α : Type} (idOf : α → String)
    (m : List (String × α)) (f : α → Bool)
    (hkeyed : ∀ p ∈ m, p.1 = idOf p.2) (hnodup : (m.map Prod.fst).Nodup) :
    (((mapValues m).filter f).map idOf).foldl (fun es i => mapDelete es i) m =
      m.filter (fun p => !(f p.2)) := by
  induction m with
  | nil => rfl
  | cons p rest ih =>
    obtain ⟨a, b⟩ := p
    have ha : a = idOf b := hkeyed (a, b) (List.mem_cons_self _ _)
    have hkeyed' : ∀ q ∈ rest, q.1 = idOf q.2 :=
      fun q hq => hkeyed q (List.mem_cons_of_mem _ hq)
    have hnodup' : (rest.map Prod.fst).Nodup := (List.nodup_cons.mp hnodup).2
    have hnotmem : a ∉ rest.map Prod.fst := (List.nodup_cons.mp hnodup).1
    have hsubkeys : ∀ i ∈ ((mapValues rest).filter f).map idOf,
        i ∈ rest.map Prod.fst := by
      intro i hi
      rcases List.mem_map.mp hi with ⟨e, he, rfl⟩
      rcases List.mem_map.mp (List.mem_of_mem_filter he) with ⟨q, hq, rfl⟩
      exact (hkeyed' q hq) ▸ List.mem_map.mpr ⟨q, hq, rfl⟩
    cases hf : f b with
    | true =>
      have hvals : (mapValues ((a, b) :: rest)).filter f =
          b :: (mapValues rest).filter f := by
        simp [mapValues, List.filter_cons, hf]
      rw [hvals, List.map_cons, List.foldl_cons]
      have hdel : mapDelete ((a, b) :: rest) (idOf b) = rest := by
        simp [mapDelete, ha]
      rw [hdel, ih hkeyed' hnodup']
      simp [List.filter_cons, hf]
    | false =>
      have hvals : (mapValues ((a, b) :: rest)).filter f =
          (mapValues rest).filter f := by
        simp [mapValues, List.filter_cons, hf]
      rw [hvals]
      rw [foldl_mapDelete_cons_of_not_mem (a, b) rest _
        (fun hm => hnotmem (hsubkeys _ hm))]
      rw [ih hkeyed' hnodup']
      simp [List.filter_cons, hf]

/-! ## Injectivity of the generated ids -/

theorem digitChar_inj : ∀ a < 10, ∀ b < 10,
    Char.ofNat (a + 48) = Char.ofNat (b + 48) → a = b := by decide

theorem map_digitChar_inj :
    ∀ (l₁ l₂ : List Nat), (∀ d ∈ l₁, d < 10) → (∀ d ∈ l₂, d < 10) →
    l₁.map (fun d => Char.ofNat (d + 48)) = l₂.map (fun d => Char.ofNat (d + 48)) →
    l₁ = l₂ := by
  intro l₁
  induction l₁ with
  | nil => intro l₂ _ _ h; cases l₂ <;> simp_all
  | cons a l₁ ih =>
    intro l₂ h₁ h₂ h
    cases l₂ with
    | nil => simp_all
    | cons b l₂ =>
      simp only [List.map_cons, List.cons.injEq] at h
      have hab := digitChar_inj a (h₁ a (List.mem_cons_self _ _))
        b (h₂ b (List.mem_cons_self _ _)) h.1
      subst hab
      rw [ih l₂ (fun d hd => h₁ d (List.mem_cons_of_mem _ hd))
        (fun d hd => h₂ d (List.mem_cons_of_mem _ hd)) h.2]

theorem decDigitsRev_eq_digits : ∀ (fuel n : Nat), n ≤ fuel →
    decDigitsRev fuel n = Nat.digits 10 n := by
  intro fuel
  induction fuel with
  | zero =>
    intro n hn
    have : n = 0 := Nat.le_zero.mp hn
    subst this
    simp [decDigitsRev]
  | succ fuel ih =>
    intro n hn
    by_cases h0 : n = 0
    · subst h0; simp [decDigitsRev]
    · rw [show decDigitsRev (fuel + 1) n = n % 10 :: decDigitsRev fuel (n / 10)
        by simp [decDigitsRev, h0]]
      have hlt : n / 10 < n := Nat.div_lt_self (Nat.pos_of_ne_zero h0) (by norm_num)
      rw [ih (n / 10) (by omega)]
      exact (Nat.digits_def' (by norm_num) (Nat.pos_of_ne_zero h0)).symm

theorem natRepr_ne_zeroStr : ∀ k, k ≠ 0 → natRepr k ≠ "0" := by
  intro k hk hcontra
  have hbound : ∀ d ∈ Nat.digits 10 k, d < 10 :=
    fun d hd => Nat.digits_lt_base (by norm_num) hd
  have hdata : ((Nat.digits 10 k).map (fun d => Char.ofNat (d + 48))).reverse =
      "0".data := by
    have h0 := congrArg String.data hcontra
    rw [← decDigitsRev_eq_digits k k le_rfl]
    simpa [natRepr, hk] using h0
  have hmap : (Nat.digits 10 k).map (fun d => Char.ofNat (d + 48)) = ['0'] := by
    have := congrArg List.reverse hdata
    simpa using this
  rcases hx : Nat.digits 10 k with _ | ⟨d, ds⟩
  · exact (Nat.digits_ne_nil_iff_ne_zero.mpr hk) hx
  · rw [hx] at hmap
    cases ds with
    | cons e es => simp at hmap
    | nil =>
      simp only [List.map_cons, List.map_nil, List.cons.injEq, and_true] at hmap
      have hd0 : d = 0 := by
        refine digitChar_inj d (hbound d (hx ▸ List.mem_cons_self _ _)) 0
          (by norm_num) ?_
        simpa using hmap
      apply hk
      have hof := Nat.ofDigits_digits 10 k
      rw [hx, hd0] at hof
      simpa [Nat.ofDigits] using hof.symm

theorem natRepr_injective : Function.Injective natRepr := by
  have hbound : ∀ n, ∀ d ∈ Nat.digits 10 n, d < 10 :=
    fun n d hd => Nat.digits_lt_base (by norm_num) hd
  intro m n h
  by_cases hm : m = 0 <;> by_cases hn : n = 0
  · rw [hm, hn]
  · exfalso
    apply natRepr_ne_zeroStr n hn
    rw [← h, hm]
    simp [natRepr]
  · exfalso
    apply natRepr_ne_zeroStr m hm
    rw [h, hn]
    simp [natRepr]
  · have hdata :
        ((Nat.digits 10 m).map (fun d => Char.ofNat (d + 48))).reverse =
        ((Nat.digits 10 n).map (fun d => Char.ofNat (d + 48))).reverse := by
      have h0 := congrArg String.data h
      rw [← decDigitsRev_eq_digits m m le_rfl, ← decDigitsRev_eq_digits n n le_rfl]
      simpa [natRepr, hm, hn] using h0
    have hmap := List.reverse_injective hdata
    exact Nat.digits.injective 10
      (map_digitChar_inj _ _ (hbound m) (hbound n) hmap)

theorem mkNodeId_injective : Function.Injective mkNodeId := by
  intro a b h
  apply natRepr_injective
  have := congrArg String.data h
  simp only [mkNodeId, String.data_append] at this
  have := List.append_cancel_left this
  exact String.ext this

theorem mkEdgeId_injective : Function.Injective mkEdgeId := by
  intro a b h
  apply natRepr_injective
  have := congrArg String.data h
  simp only [mkEdgeId, String.data_append] at this
  have := List.append_cancel_left this
  exact String.ext this

theorem mapHas_mapSet_of {κ α : Type} [BEq κ] [LawfulBEq κ] [DecidableEq κ]
    {m : List (κ × α)} {k' : κ} (k : κ) (v : α) (h : mapHas m k' = true) :
    mapHas (mapSet m k v) k' = true := by
  unfold mapHas at h ⊢
  rw [mapGet_mapSet]
  by_cases hk : k = k' <;> simp [hk, h]

theorem mapHas_mapSet_self {κ α : Type} [BEq κ] [LawfulBEq κ] [DecidableEq κ]
    (m : List (κ × α)) (k : κ) (v : α) : mapHas (mapSet m k v) k = true := by
  unfold mapHas
  rw [mapGet_mapSet]
  simp

theorem mapHas_mapDelete_ne {κ α : Type} [BEq κ] [LawfulBEq κ] [DecidableEq κ]
    {m : List (κ × α)} {k k' : κ} (h : k' ≠ k) :
    mapHas (mapDelete m k) k' = mapHas m k' := by
  unfold mapHas
  rw [mapGet_mapDelete_ne _ _ _ h]

/-! ## The store invariant is maintained by the API -/

theorem invariant_new (options : FlowDiagramOptions) :
    Invariant (newFlowDiagram options) := by
  constructor <;> simp [newFlowDiagram]

theorem addNode_id_fresh {d : FlowDiagram} (hd : Invariant d) :
    mapHas d.nodes (mkNodeId d.nextNodeId) = false := by
  cases hh : mapHas d.nodes (mkNodeId d.nextNodeId) with
  | false => rfl
  | true =>
    exfalso
    unfold mapHas at hh
    cases hg : mapGet d.nodes (mkNodeId d.nextNodeId) with
    | none => rw [hg] at hh; simp at hh
    | some v =>
      rcases hd.nodes_bound _ (mapGet_mem hg) with ⟨k, hk, hkid⟩
      exact absurd (mkNodeId_injective hkid.symm) (Nat.ne_of_lt hk)

theorem addEdge_id_fresh {d : FlowDiagram} (hd : Invariant d) :
    mapHas d.edges (mkEdgeId d.nextEdgeId) = false := by
  cases hh : mapHas d.edges (mkEdgeId d.nextEdgeId) with
  | false => rfl
  | true =>
    exfalso
    unfold mapHas at hh
    cases hg : mapGet d.edges (mkEdgeId d.nextEdgeId) with
    | none => rw [hg] at hh; simp at hh
    | some v =>
      rcases hd.edges_bound _ (mapGet_mem hg) with ⟨k, hk, hkid⟩
      exact absurd (mkEdgeId_injective hkid.symm) (Nat.ne_of_lt hk)

theorem invariant_addNode {d : FlowDiagram} (hd : Invariant d)
    (args : AddNodeArgs) : Invariant (addNode d args).2 := by
  unfold addNode
  constructor
  · intro p hp
    exact mapHas_mapSet_of _ _ (hd.edges_src p hp)
  · intro p hp
    exact mapHas_mapSet_of _ _ (hd.edges_tgt p hp)
  · intro p hp
    rcases mem_mapSet hp with rfl | hp
    · rfl
    · exact hd.nodes_keyed p hp
  · exact hd.edges_keyed
  · exact nodup_keys_mapSet _ hd.nodes_nodup
  · exact hd.edges_nodup
  · intro p hp
    rcases mem_mapSet hp with rfl | hp
    · exact ⟨d.nextNodeId, Nat.lt_succ_self _, rfl⟩
    · rcases hd.nodes_bound p hp with ⟨k, hk, hkid⟩
      exact ⟨k, Nat.lt_succ_of_lt hk, hkid⟩
  · exact hd.edges_bound

theorem invariant_addEdge {d : FlowDiagram} (hd : Invariant d)
    (args : AddEdgeArgs) : Invariant (addEdge d args).2 := by
  unfold addEdge
  by_cases hv : (!(mapHas d.nodes args.sourceId) || !(mapHas d.nodes args.targetId)) = true
  · rw [if_pos hv]
    exact { hd with
      edges_bound := fun p hp => by
        rcases hd.edges_bound p hp with ⟨k, hk, hkid⟩
        exact ⟨k, Nat.lt_succ_of_lt hk, hkid⟩ }
  · rw [if_neg hv]
    simp only [Bool.or_eq_true, Bool.not_eq_true', not_or, Bool.not_eq_false] at hv
    constructor
    · intro p hp
      rcases mem_mapSet hp with rfl | hp
      · exact hv.1
      · exact hd.edges_src p hp
    · intro p hp
      rcases mem_mapSet hp with rfl | hp
      · exact hv.2
      · exact hd.edges_tgt p hp
    · exact hd.nodes_keyed
    · intro p hp
      rcases mem_mapSet hp with rfl | hp
      · rfl
      · exact hd.edges_keyed p hp
    · exact hd.nodes_nodup
    · exact nodup_keys_mapSet _ hd.edges_nodup
    · exact hd.nodes_bound
    · intro p hp
      rcases mem_mapSet hp with rfl | hp
      · exact ⟨d.nextEdgeId, Nat.lt_succ_self _, rfl⟩
      · rcases hd.edges_bound p hp with ⟨k, hk, hkid⟩
        exact ⟨k, Nat.lt_succ_of_lt hk, hkid⟩

/-- With a well-keyed, duplicate-free edge map, `removeNode`'s id-collecting
edge pass is exactly an in-place filter. -/
theorem removeNode_edges_eq_filter {d : FlowDiagram} (hd : Invariant d)
    (id : String) :
    ((((mapValues d.edges).filter
        (fun e => e.sourceId == id || e.targetId == id)).map Edge.id).foldl
      (fun es eid => mapDelete es eid) d.edges) =
    d.edges.filter
      (fun p => !(p.2.sourceId == id || p.2.targetId == id)) :=
  foldl_mapDelete_eq_filter Edge.id d.edges _ hd.edges_keyed hd.edges_nodup

theorem invariant_removeNode {d : FlowDiagram} (hd : Invariant d)
    (id : String) : Invariant (removeNode d id).2 := by
  unfold removeNode
  by_cases hh : mapHas d.nodes id = true
  · rw [if_pos hh]
    simp only
    rw [removeNode_edges_eq_filter hd id]
    constructor
    · intro p hp
      have hmem := List.mem_of_mem_filter hp
      have hcond := List.of_mem_filter hp
      simp only [Bool.not_eq_true', Bool.or_eq_false_iff, beq_eq_false_iff_ne]
        at hcond
      rw [mapHas_mapDelete_ne hcond.1]
      exact hd.edges_src p hmem
    · intro p hp
      have hmem := List.mem_of_mem_filter hp
      have hcond := List.of_mem_filter hp
      simp only [Bool.not_eq_true', Bool.or_eq_false_iff, beq_eq_false_iff_ne]
        at hcond
      rw [mapHas_mapDelete_ne hcond.2]
      exact hd.edges_tgt p hmem
    · intro p hp
      exact hd.nodes_keyed p (mem_of_mem_mapDelete hp)
    · intro p hp
      exact hd.edges_keyed p (List.mem_of_mem_filter hp)
    · exact nodup_keys_mapDelete hd.nodes_nodup
    · exact ((List.filter_sublist _).map Prod.fst).nodup hd.edges_nodup
    · intro p hp
      exact hd.nodes_bound p (mem_of_mem_mapDelete hp)
    · intro p hp
      exact hd.edges_bound p (List.mem_of_mem_filter hp)
  · rw [if_neg hh]
    exact hd

theorem invariant_removeEdge {d : FlowDiagram} (hd : Invariant d)
    (id : String) : Invariant (removeEdge d id).2 := by
  unfold removeEdge
  constructor
  · intro p hp
    exact hd.edges_src p (mem_of_mem_mapDelete hp)
  · intro p hp
    exact hd.edges_tgt p (mem_of_mem_mapDelete hp)
  · exact hd.nodes_keyed
  · intro p hp
    exact hd.edges_keyed p (mem_of_mem_mapDelete hp)
  · exact hd.nodes_nodup
  · exact nodup_keys_mapDelete hd.edges_nodup
  · exact hd.nodes_bound
  · intro p hp
    exact hd.edges_bound p (mem_of_mem_mapDelete hp)

theorem invariant_applyOp {d : FlowDiagram} (hd : Invariant d) (op : Op) :
    Invariant (applyOp d op) := by
  cases op with
  | addNode args => exact invariant_addNode hd args
  | addEdge args => exact invariant_addEdge hd args
  | removeNode id => exact invariant_removeNode hd id
  | removeEdge id => exact invariant_removeEdge hd id

theorem invariant_applyOps {d : FlowDiagram} (hd : Invariant d)
    (ops : List Op) : Invariant (applyOps d ops) := by
  induction ops generalizing d with
  | nil => exact hd
  | cons op ops ih => exact ih (invariant_applyOp hd op)

/-! ## Claim theorems -/

/-- C1.  Referential integrity: starting from a freshly constructed store,
after any sequence of `addNode`/`addEdge`/`removeNode`/`removeEdge`
operations through the store API, every edge remaining in the store has a
`sourceId` and a `targetId` that resolve to currently-present nodes. -/
theorem referential_integrity_traces (options : FlowDiagramOptions)
    (ops : List Op) :
    refIntegrity (applyOps (newFlowDiagram options) ops) = true := by
  have hinv := invariant_applyOps (invariant_new options) ops
  unfold refIntegrity
  rw [List.all_eq_true]
  intro p hp
  rw [Bool.and_eq_true]
  exact ⟨hinv.edges_src p hp, hinv.edges_tgt p hp⟩

/-- C2 counterexample.  A failed `addEdge` does *not* leave the store
completely unmutated: `this.nextEdgeId++` runs before the endpoint
validation throws, so the store differs from what it was before the call
(the skipped id is observable through the id of the next successful edge). -/
theorem addEdge_failed_call_mutates_state :
    (addEdge (addNode (newFlowDiagram {}) { label := "A" }).2
      { sourceId := "node_1", targetId := "missing" }).2 ≠
    (addNode (newFlowDiagram {}) { label := "A" }).2 := by decide

/-- C2 amended.  `addEdge` with an unknown endpoint signals the error and
records no edge — the node and edge collections are exactly as before — but
the edge id counter has been advanced by one. -/
theorem addEdge_failure_only_bumps_counter (d : FlowDiagram)
    (args : AddEdgeArgs)
    (h : (mapHas d.nodes args.sourceId && mapHas d.nodes args.targetId) = false) :
    addEdge d args =
      (Except.error "Source or target node does not exist",
       { d with nextEdgeId := d.nextEdgeId + 1 }) := by
  unfold addEdge
  have hcond : (!mapHas d.nodes args.sourceId ||
      !mapHas d.nodes args.targetId) = true := by
    cases h1 : mapHas d.nodes args.sourceId <;>
      cases h2 : mapHas d.nodes args.targetId <;> simp_all
  rw [if_pos hcond]

theorem addEdge_failure_only_bumps_counter_witness :
    (mapHas (newFlowDiagram {}).nodes "a" &&
      mapHas (newFlowDiagram {}).nodes "b") = false ∧
    addEdge (newFlowDiagram {}) { sourceId := "a", targetId := "b" } =
      (Except.error "Source or target node does not exist",
       { newFlowDiagram {} with nextEdgeId := 2 }) :=
  ⟨by decide,
   addEdge_failure_only_bumps_counter (newFlowDiagram {})
     { sourceId := "a", targetId := "b" } (by decide)⟩

/-- C3.  Cascade-on-removal: on a store whose edge map is keyed by the
edges' own ids without duplicates (true of every store the API builds),
`removeNode id` on a present node reports success, deletes exactly that
node, and deletes exactly the edges whose source or target equals it — the
remaining entries of both maps are untouched, in order, as are the options
and both counters. -/
theorem removeNode_cascade (d : FlowDiagram) (id : String)
    (hkeyed : ∀ p ∈ d.edges, p.1 = Edge.id p.2)
    (hnodup : (d.edges.map Prod.fst).Nodup)
    (hhas : mapHas d.nodes id = true) :
    removeNode d id =
      (true,
       { d with
          nodes := mapDelete d.nodes id
          edges := d.edges.filter
            (fun p => !(p.2.sourceId == id || p.2.targetId == id)) }) := by
  unfold removeNode
  rw [if_pos hhas]
  simp only
  rw [foldl_mapDelete_eq_filter Edge.id d.edges _ hkeyed hnodup]

theorem removeNode_cascade_witness :
    (∀ p ∈ (addEdge (addNode (addNode (newFlowDiagram {})
        { label := "A" }).2 { label := "B" }).2
        { sourceId := "node_1", targetId := "node_2" }).2.edges,
      p.1 = Edge.id p.2) ∧
    ((addEdge (addNode (addNode (newFlowDiagram {})
        { label := "A" }).2 { label := "B" }).2
        { sourceId := "node_1", targetId := "node_2" }).2.edges.map
      Prod.fst).Nodup ∧
    mapHas (addEdge (addNode (addNode (newFlowDiagram {})
        { label := "A" }).2 { label := "B" }).2
        { sourceId := "node_1", targetId := "node_2" }).2.nodes "node_1" = true ∧
    removeNode (addEdge (addNode (addNode (newFlowDiagram {})
        { label := "A" }).2 { label := "B" }).2
        { sourceId := "node_1", targetId := "node_2" }).2 "node_1" =
      (true,
       { (addEdge (addNode (addNode (newFlowDiagram {})
            { label := "A" }).2 { label := "B" }).2
            { sourceId := "node_1", targetId := "node_2" }).2 with
          nodes := mapDelete (addEdge (addNode (addNode (newFlowDiagram {})
            { label := "A" }).2 { label := "B" }).2
            { sourceId := "node_1", targetId := "node_2" }).2.nodes "node_1"
          edges := (addEdge (addNode (addNode (newFlowDiagram {})
            { label := "A" }).2 { label := "B" }).2
            { sourceId := "node_1", targetId := "node_2" }).2.edges.filter
              (fun p => !(p.2.sourceId == "node_1" || p.2.targetId == "node_1")) }) :=
  ⟨by decide, by decide, by decide,
   removeNode_cascade _ "node_1" (by decide) (by decide) (by decide)⟩

/-! ### C4: id stability -/

theorem addEdge_nextNodeId (d : FlowDiagram) (args : AddEdgeArgs) :
    (addEdge d args).2.nextNodeId = d.nextNodeId := by
  unfold addEdge
  split <;> rfl

theorem addEdge_nextEdgeId (d : FlowDiagram) (args : AddEdgeArgs) :
    (addEdge d args).2.nextEdgeId = d.nextEdgeId + 1 := by
  unfold addEdge
  split <;> rfl

theorem removeNode_nextNodeId (d : FlowDiagram) (id : String) :
    (removeNode d id).2.nextNodeId = d.nextNodeId := by
  unfold removeNode
  split <;> rfl

theorem removeNode_nextEdgeId (d : FlowDiagram) (id : String) :
    (removeNode d id).2.nextEdgeId = d.nextEdgeId := by
  unfold removeNode
  split <;> rfl

/-- Along any trace from a fresh store, the store invariant holds and every
node/edge id the trace has handed out is `node_k`/`edge_k` for some `k`
strictly below the respective counter. -/
theorem runTrace_spec (options : FlowDiagramOptions) (ops : List Op) :
    Invariant (runTrace options ops).1 ∧
    (∀ s ∈ (runTrace options ops).2.1,
      ∃ k, k < (runTrace options ops).1.nextNodeId ∧ s = mkNodeId k) ∧
    (∀ s ∈ (runTrace options ops).2.2,
      ∃ k, k < (runTrace options ops).1.nextEdgeId ∧ s = mkEdgeId k) := by
  unfold runTrace
  suffices h : ∀ (ops : List Op) (acc : FlowDiagram × List String × List String),
      Invariant acc.1 →
      (∀ s ∈ acc.2.1, ∃ k, k < acc.1.nextNodeId ∧ s = mkNodeId k) →
      (∀ s ∈ acc.2.2, ∃ k, k < acc.1.nextEdgeId ∧ s = mkEdgeId k) →
      Invariant (ops.foldl
        (fun (acc : FlowDiagram × List String × List String) op =>
          match op with
          | .addNode args =>
            let (i, d') := addNode acc.1 args
            (d', acc.2.1 ++ [i], acc.2.2)
          | .addEdge args =>
            ((addEdge acc.1 args).2, acc.2.1, acc.2.2 ++ [mkEdgeId acc.1.nextEdgeId])
          | .removeNode id => ((removeNode acc.1 id).2, acc.2)
          | .removeEdge id => ((removeEdge acc.1 id).2, acc.2)) acc).1 ∧
      (∀ s ∈ (ops.foldl
        (fun (acc : FlowDiagram × List String × List String) op =>
          match op with
          | .addNode args =>
            let (i, d') := addNode acc.1 args
            (d', acc.2.1 ++ [i], acc.2.2)
          | .addEdge args =>
            ((addEdge acc.1 args).2, acc.2.1, acc.2.2 ++ [mkEdgeId acc.1.nextEdgeId])
          | .removeNode id => ((removeNode acc.1 id).2, acc.2)
          | .removeEdge id => ((removeEdge acc.1 id).2, acc.2)) acc).2.1,
        ∃ k, k < (ops.foldl
          (fun (acc : FlowDiagram × List String × List String) op =>
            match op with
            | .addNode args =>
              let (i, d') := addNode acc.1 args
              (d', acc.2.1 ++ [i], acc.2.2)
            | .addEdge args =>
              ((addEdge acc.1 args).2, acc.2.1, acc.2.2 ++ [mkEdgeId acc.1.nextEdgeId])
            | .removeNode id => ((removeNode acc.1 id).2, acc.2)
            | .removeEdge id => ((removeEdge acc.1 id).2, acc.2)) acc).1.nextNodeId ∧
          s = mkNodeId k) ∧
      (∀ s ∈ (ops.foldl
        (fun (acc : FlowDiagram × List String × List String) op =>
          match op with
          | .addNode args =>
            let (i, d') := addNode acc.1 args
            (d', acc.2.1 ++ [i], acc.2.2)
          | .addEdge args =>
            ((addEdge acc.1 args).2, acc.2.1, acc.2.2 ++ [mkEdgeId acc.1.nextEdgeId])
          | .removeNode id => ((removeNode acc.1 id).2, acc.2)
          | .removeEdge id => ((removeEdge acc.1 id).2, acc.2)) acc).2.2,
        ∃ k, k < (ops.foldl
          (fun (acc : FlowDiagram × List String × List String) op =>
            match op with
            | .addNode args =>
              let (i, d') := addNode acc.1 args
              (d', acc.2.1 ++ [i], acc.2.2)
            | .addEdge args =>
              ((addEdge acc.1 args).2, acc.2.1, acc.2.2 ++ [mkEdgeId acc.1.nextEdgeId])
            | .removeNode id => ((removeNode acc.1 id).2, acc.2)
            | .removeEdge id => ((removeEdge acc.1 id).2, acc.2)) acc).1.nextEdgeId ∧
          s = mkEdgeId k) by
    exact h ops (newFlowDiagram options, [], []) (invariant_new options)
      (by intro s hs; cases hs) (by intro s hs; cases hs)
  intro ops
  induction ops with
  | nil =>
    intro acc h1 h2 h3
    exact ⟨h1, h2, h3⟩
  | cons op ops ih =>
    intro acc h1 h2 h3
    rw [List.foldl_cons]
    cases op with
    | addNode args =>
      refine ih _ (invariant_addNode h1 args) ?_ ?_
      · intro s hs
        rcases List.mem_append.mp hs with hs | hs
        · rcases h2 s hs with ⟨k, hk, rfl⟩
          exact ⟨k, Nat.lt_succ_of_lt hk, rfl⟩
        · rcases List.mem_singleton.mp hs with rfl
          exact ⟨acc.1.nextNodeId, Nat.lt_succ_self _, rfl⟩
      · exact h3
    | addEdge args =>
      refine ih _ (invariant_addEdge h1 args) ?_ ?_
      · intro s hs
        rcases h2 s hs with ⟨k, hk, rfl⟩
        exact ⟨k, by rw [addEdge_nextNodeId]; exact hk, rfl⟩
      · intro s hs
        rcases List.mem_append.mp hs with hs | hs
        · rcases h3 s hs with ⟨k, hk, rfl⟩
          exact ⟨k, by rw [addEdge_nextEdgeId]; exact Nat.lt_succ_of_lt hk, rfl⟩
        · rcases List.mem_singleton.mp hs with rfl
          exact ⟨acc.1.nextEdgeId, by rw [addEdge_nextEdgeId]; exact Nat.lt_succ_self _, rfl⟩
    | removeNode id =>
      refine ih _ (invariant_removeNode h1 id) ?_ ?_
      · intro s hs
        rcases h2 s hs with ⟨k, hk, rfl⟩
        exact ⟨k, by rw [removeNode_nextNodeId]; exact hk, rfl⟩
      · intro s hs
        rcases h3 s hs with ⟨k, hk, rfl⟩
        exact ⟨k, by rw [removeNode_nextEdgeId]; exact hk, rfl⟩
    | removeEdge id =>
      exact ih _ (invariant_removeEdge h1 id) h2 h3

/-- C4 counterexample.  Reconstructing a one-node store from its snapshot
and calling `addNode` again reassigns the already-used id `node_1` to a
different entity — `fromJSON` never restores the id counters, so the claim
fails for stores obtained by snapshot reconstruction. -/
theorem fromJSON_store_reassigns_id :
    (addNode (fromJSON (toJSON (addNode (newFlowDiagram {})
      { label := "A" }).2)) { label := "B" }).1 = "node_1" ∧
    (getNode (addNode (newFlowDiagram {}) { label := "A" }).2 "node_1").map
      Node.label = some "A" ∧
    (getNode (addNode (fromJSON (toJSON (addNode (newFlowDiagram {})
      { label := "A" }).2)) { label := "B" }).2 "node_1").map
      Node.label = some "B" :=
  ⟨by decide, by decide, by decide⟩

/-- C4 amended.  Within one store instance built by add/remove operations
from a fresh store (snapshot reconstruction excluded), ids are never
reassigned: the id a further `addNode` returns is not among the node ids
the trace ever handed out, and the id the next `addEdge` would consume
(`edge_<counter>`, whether or not the call validates) is not among the edge
ids ever handed out. -/
theorem id_stability_fresh_store (options : FlowDiagramOptions)
    (ops : List Op) (args : AddNodeArgs) :
    ((runTrace options ops).2.1.contains
      (addNode (runTrace options ops).1 args).1) = false ∧
    ((runTrace options ops).2.2.contains
      (mkEdgeId (runTrace options ops).1.nextEdgeId)) = false := by
  obtain ⟨_, hn, he⟩ := runTrace_spec options ops
  constructor
  · cases hc : (runTrace options ops).2.1.contains
        (addNode (runTrace options ops).1 args).1 with
    | false => rfl
    | true =>
      exfalso
      have hmem := List.elem_iff.mp hc
      rcases hn _ hmem with ⟨k, hk, hkid⟩
      exact absurd (mkNodeId_injective hkid).symm (Nat.ne_of_lt hk)
  · cases hc : (runTrace options ops).2.2.contains
        (mkEdgeId (runTrace options ops).1.nextEdgeId) with
    | false => rfl
    | true =>
      exfalso
      have hmem := List.elem_iff.mp hc
      rcases he _ hmem with ⟨k, hk, hkid⟩
      exact absurd (mkEdgeId_injective hkid).symm (Nat.ne_of_lt hk)

/-! ### C5: node id immutability under `updateNode` -/

/-- C5 counterexample.  `updateNode` shallow-merges *any* `Partial<Node>`,
including one carrying an `id` property: after
`updateNode("node_1", { id: "node_X" })` the node retrieved by
`getNode("node_1")` carries id `node_X`, not `node_1`. -/
theorem updateNode_id_override_changes_id :
    (updateNode (addNode (newFlowDiagram {}) { label := "A" }).2 "node_1"
      { id := some "node_X" }).1 = true ∧
    (getNode (updateNode (addNode (newFlowDiagram {}) { label := "A" }).2
      "node_1" { id := some "node_X" }).2 "node_1").map Node.id =
      some "node_X" ∧
    "node_X" ≠ "node_1" :=
  ⟨by decide, by decide, by decide⟩

/-- C5 amended.  For every `updateNode(id, partialFields)` call on an
existing node whose stored id matches its key, **provided `partialFields`
does not carry an `id` property**, the call succeeds and the node retrieved
afterwards by `getNode(id)` still has id `id`. -/
theorem updateNode_keeps_id_without_override (d : FlowDiagram) (id : String)
    (u : PartialNode) (n : Node) (hget : getNode d id = some n)
    (hnid : n.id = id) (hu : u.id = none) :
    (updateNode d id u).1 = true ∧
    (getNode (updateNode d id u).2 id).map Node.id = some id := by
  have h2 : updateNode d id u =
      (true, { d with nodes := mapSet d.nodes id (mergeNode n u) }) := by
    unfold updateNode
    rw [show mapGet d.nodes id = some n from hget]
  rw [h2]
  refine ⟨rfl, ?_⟩
  unfold getNode
  simp only
  rw [mapGet_mapSet, if_pos rfl]
  simp [mergeNode, hu, hnid]

theorem updateNode_keeps_id_without_override_witness :
    getNode (addNode (newFlowDiagram {}) { label := "A" }).2 "node_1" =
      some { id := "node_1", label := "A", type := some "default",
             position := some ⟨0, 0⟩, style := some {}, data := some [] } ∧
    ({ id := "node_1", label := "A", type := some "default",
       position := some ⟨0, 0⟩, style := some {}, data := some [] } : Node).id =
      "node_1" ∧
    ({ label := some "A2" } : PartialNode).id = none ∧
    ((updateNode (addNode (newFlowDiagram {}) { label := "A" }).2 "node_1"
        { label := some "A2" }).1 = true ∧
      (getNode (updateNode (addNode (newFlowDiagram {}) { label := "A" }).2
        "node_1" { label := some "A2" }).2 "node_1").map Node.id =
        some "node_1") :=
  ⟨by decide, by decide, by decide,
   updateNode_keeps_id_without_override
     (addNode (newFlowDiagram {}) { label := "A" }).2 "node_1"
     { label := some "A2" }
     { id := "node_1", label := "A", type := some "default",
       position := some ⟨0, 0⟩, style := some {}, data := some [] }
     (by decide) (by decide) (by decide)⟩

/-! ### C6: snapshot round-trip -/

theorem mapGet_append {κ α : Type} [BEq κ] [LawfulBEq κ] [DecidableEq κ]
    (m m' : List (κ × α)) (k : κ) :
    mapGet (m ++ m') k =
      match mapGet m k with
      | some v => some v
      | none => mapGet m' k := by
  induction m with
  | nil => simp [mapGet_nil]
  | cons p rest ih =>
    obtain ⟨a, b⟩ := p
    rw [List.cons_append, mapGet_cons, mapGet_cons]
    by_cases ha : a = k
    · simp [ha]
    · simp [ha, ih]

theorem mapSet_append_of_not_has {κ α : Type} [BEq κ] [LawfulBEq κ]
    [DecidableEq κ] (m : List (κ × α)) (k : κ) (v : α)
    (h : mapHas m k = false) : mapSet m k v = m ++ [(k, v)] := by
  induction m with
  | nil => rfl
  | cons p rest ih =>
    obtain ⟨a, b⟩ := p
    by_cases ha : a = k
    · subst ha
      simp [mapHas, mapGet_cons] at h
    · rw [show mapSet ((a, b) :: rest) k v = (a, b) :: mapSet rest k v by
        simp [mapSet, ha]]
      have h' : mapHas rest k = false := by
        simpa [mapHas, mapGet_cons, ha] using h
      rw [ih h', List.cons_append]

/-- Re-inserting values keyed by their own fresh, pairwise-distinct ids
appends them in order. -/
theorem foldl_insert_by_id {α : Type} (idOf : α → String) :
    ∀ (vs : List α) (acc : List (String × α)),
    (∀ v ∈ vs, mapHas acc (idOf v) = false) →
    (vs.map idOf).Nodup →
    vs.foldl (fun m v => mapSet m (idOf v) v) acc =
      acc ++ vs.map (fun v => (idOf v, v)) := by
  intro vs
  induction vs with
  | nil => intro acc _ _; simp
  | cons v vs ih =>
    intro acc hfresh hnodup
    rw [List.map_cons] at hnodup
    obtain ⟨hhead, htail⟩ := List.nodup_cons.mp hnodup
    rw [List.foldl_cons,
      mapSet_append_of_not_has _ _ _ (hfresh v (List.mem_cons_self _ _))]
    rw [ih (acc ++ [(idOf v, v)]) ?_ htail]
    · simp
    · intro w hw
      unfold mapHas
      rw [mapGet_append]
      have hnone : mapGet acc (idOf w) = none := by
        have := hfresh w (List.mem_cons_of_mem _ hw)
        unfold mapHas at this
        cases hg : mapGet acc (idOf w) with
        | none => rfl
        | some x => rw [hg] at this; simp at this
      rw [hnone]
      have hne : idOf w ≠ idOf v := by
        intro hc
        exact hhead (hc ▸ List.mem_map.mpr ⟨w, hw, rfl⟩)
      rw [mapGet_cons, if_neg (fun h => hne h.symm)]
      rfl

/-- C6.  Snapshot round-trip: for every store whose maps are keyed by their
values' ids without duplicates (true of every store the API builds),
`fromJSON (toJSON d)` reproduces the node map and edge map verbatim — hence
equal node/edge counts and identical field values at every id. -/
theorem snapshot_roundtrip (d : FlowDiagram)
    (hn : ∀ p ∈ d.nodes, p.1 = Node.id p.2)
    (hnn : (d.nodes.map Prod.fst).Nodup)
    (he : ∀ p ∈ d.edges, p.1 = Edge.id p.2)
    (hen : (d.edges.map Prod.fst).Nodup) :
    (fromJSON (toJSON d)).nodes = d.nodes ∧
    (fromJSON (toJSON d)).edges = d.edges ∧
    nodeCount (fromJSON (toJSON d)) = nodeCount d ∧
    edgeCount (fromJSON (toJSON d)) = edgeCount d ∧
    (∀ id, getNode (fromJSON (toJSON d)) id = getNode d id) ∧
    (∀ id, getEdge (fromJSON (toJSON d)) id = getEdge d id) := by
  have hmapn : (mapValues d.nodes).map Node.id = d.nodes.map Prod.fst := by
    unfold mapValues
    rw [List.map_map]
    exact List.map_congr_left (fun p hp => (hn p hp).symm)
  have hmape : (mapValues d.edges).map Edge.id = d.edges.map Prod.fst := by
    unfold mapValues
    rw [List.map_map]
    exact List.map_congr_left (fun p hp => (he p hp).symm)
  have hnodes : (fromJSON (toJSON d)).nodes = d.nodes := by
    show (mapValues d.nodes).foldl (fun m n => mapSet m n.id n) [] = d.nodes
    rw [foldl_insert_by_id Node.id (mapValues d.nodes) []
      (fun v _ => rfl) (hmapn ▸ hnn)]
    rw [List.nil_append]
    unfold mapValues
    rw [List.map_map]
    conv_rhs => rw [← List.map_id d.nodes]
    exact List.map_congr_left (fun p hp => by
      simp only [Function.comp_apply, id_eq]
      rw [← hn p hp])
  have hedges : (fromJSON (toJSON d)).edges = d.edges := by
    show (mapValues d.edges).foldl (fun m e => mapSet m e.id e) [] = d.edges
    rw [foldl_insert_by_id Edge.id (mapValues d.edges) []
      (fun v _ => rfl) (hmape ▸ hen)]
    rw [List.nil_append]
    unfold mapValues
    rw [List.map_map]
    conv_rhs => rw [← List.map_id d.edges]
    exact List.map_congr_left (fun p hp => by
      simp only [Function.comp_apply, id_eq]
      rw [← he p hp])
  refine ⟨hnodes, hedges, ?_, ?_, ?_, ?_⟩
  · unfold nodeCount; rw [hnodes]
  · unfold edgeCount; rw [hedges]
  · intro id; unfold getNode; rw [hnodes]
  · intro id; unfold getEdge; rw [hedges]

theorem snapshot_roundtrip_witness :
    (∀ p ∈ (addEdge (addNode (addNode (newFlowDiagram {})
        { label := "A" }).2 { label := "B" }).2
        { sourceId := "node_1", targetId := "node_2" }).2.nodes,
      p.1 = Node.id p.2) ∧
    ((addEdge (addNode (addNode (newFlowDiagram {})
        { label := "A" }).2 { label := "B" }).2
        { sourceId := "node_1", targetId := "node_2" }).2.nodes.map
      Prod.fst).Nodup ∧
    (fromJSON (toJSON (addEdge (addNode (addNode (newFlowDiagram {})
        { label := "A" }).2 { label := "B" }).2
        { sourceId := "node_1", targetId := "node_2" }).2)).nodes =
      (addEdge (addNode (addNode (newFlowDiagram {})
        { label := "A" }).2 { label := "B" }).2
        { sourceId := "node_1", targetId := "node_2" }).2.nodes :=
  ⟨by decide, by decide,
   (snapshot_roundtrip _ (by decide) (by decide) (by decide) (by decide)).1⟩

set_option maxRecDepth 100000 in
/-- C7.  Hierarchical level correctness on the three-node chain A→B→C:
the layout's BFS assigns A level 0, B level 1, C level 2, and after
`hierarchicalLayout` runs, the stored y-coordinates of A, B, C are strictly
increasing in that order. -/
theorem hierarchical_abc_levels_and_y :
    mapGet (hierarchicalLevels (addEdge (addEdge (addNode (addNode (addNode (newFlowDiagram {})
      { label := "A" }).2 { label := "B" }).2 { label := "C" }).2
      { sourceId := "node_1", targetId := "node_2" }).2
      { sourceId := "node_2", targetId := "node_3" }).2) "node_1" = some 0 ∧
    mapGet (hierarchicalLevels (addEdge (addEdge (addNode (addNode (addNode (newFlowDiagram {})
      { label := "A" }).2 { label := "B" }).2 { label := "C" }).2
      { sourceId := "node_1", targetId := "node_2" }).2
      { sourceId := "node_2", targetId := "node_3" }).2) "node_2" = some 1 ∧
    mapGet (hierarchicalLevels (addEdge (addEdge (addNode (addNode (addNode (newFlowDiagram {})
      { label := "A" }).2 { label := "B" }).2 { label := "C" }).2
      { sourceId := "node_1", targetId := "node_2" }).2
      { sourceId := "node_2", targetId := "node_3" }).2) "node_3" = some 2 ∧
    (match (getNode (hierarchicalLayout (addEdge (addEdge (addNode (addNode (addNode (newFlowDiagram {})
      { label := "A" }).2 { label := "B" }).2 { label := "C" }).2
      { sourceId := "node_1", targetId := "node_2" }).2
      { sourceId := "node_2", targetId := "node_3" }).2) "node_1").bind Node.position,
           (getNode (hierarchicalLayout (addEdge (addEdge (addNode (addNode (addNode (newFlowDiagram {})
      { label := "A" }).2 { label := "B" }).2 { label := "C" }).2
      { sourceId := "node_1", targetId := "node_2" }).2
      { sourceId := "node_2", targetId := "node_3" }).2) "node_2").bind Node.position,
           (getNode (hierarchicalLayout (addEdge (addEdge (addNode (addNode (addNode (newFlowDiagram {})
      { label := "A" }).2 { label := "B" }).2 { label := "C" }).2
      { sourceId := "node_1", targetId := "node_2" }).2
      { sourceId := "node_2", targetId := "node_3" }).2) "node_3").bind Node.position with
     | some p1, some p2, some p3 => jqLt p1.y p2.y && jqLt p2.y p3.y
     | _, _, _ => false) = true := by
  have h0 : hierarchicalLevels (addEdge (addEdge (addNode (addNode (addNode (newFlowDiagram {})
      { label := "A" }).2 { label := "B" }).2 { label := "C" }).2
      { sourceId := "node_1", targetId := "node_2" }).2
      { sourceId := "node_2", targetId := "node_3" }).2 =
      levelsBFS
      (addEdge (addEdge (addNode (addNode (addNode (newFlowDiagram {})
      { label := "A" }).2 { label := "B" }).2 { label := "C" }).2
      { sourceId := "node_1", targetId := "node_2" }).2
      { sourceId := "node_2", targetId := "node_3" }).2
      [] []
      [({ id := "node_1", label := "A", type := some "default",
          position := some ⟨0, 0⟩, style := some {}, data := some [] }, 0)] := rfl
  have s1 : levelsBFS
      (addEdge (addEdge (addNode (addNode (addNode (newFlowDiagram {})
      { label := "A" }).2 { label := "B" }).2 { label := "C" }).2
      { sourceId := "node_1", targetId := "node_2" }).2
      { sourceId := "node_2", targetId := "node_3" }).2
      [] []
      [({ id := "node_1", label := "A", type := some "default",
          position := some ⟨0, 0⟩, style := some {}, data := some [] }, 0)] =
      levelsBFS
      (addEdge (addEdge (addNode (addNode (addNode (newFlowDiagram {})
      { label := "A" }).2 { label := "B" }).2 { label := "C" }).2
      { sourceId := "node_1", targetId := "node_2" }).2
      { sourceId := "node_2", targetId := "node_3" }).2
      ["node_1"] [("node_1", 0)]
      [({ id := "node_2", label := "B", type := some "default",
          position := some ⟨0, 0⟩, style := some {}, data := some [] }, 1)] := by
    rw [levelsBFS.eq_def]
    rfl
  have s2 : levelsBFS
      (addEdge (addEdge (addNode (addNode (addNode (newFlowDiagram {})
      { label := "A" }).2 { label := "B" }).2 { label := "C" }).2
      { sourceId := "node_1", targetId := "node_2" }).2
      { sourceId := "node_2", targetId := "node_3" }).2
      ["node_1"] [("node_1", 0)]
      [({ id := "node_2", label := "B", type := some "default",
          position := some ⟨0, 0⟩, style := some {}, data := some [] }, 1)] =
      levelsBFS
      (addEdge (addEdge (addNode (addNode (addNode (newFlowDiagram {})
      { label := "A" }).2 { label := "B" }).2 { label := "C" }).2
      { sourceId := "node_1", targetId := "node_2" }).2
      { sourceId := "node_2", targetId := "node_3" }).2
      ["node_2", "node_1"] [("node_1", 0), ("node_2", 1)]
      [({ id := "node_3", label := "C", type := some "default",
          position := some ⟨0, 0⟩, style := some {}, data := some [] }, 2)] := by
    rw [levelsBFS.eq_def]
    rfl
  have s3 : levelsBFS
      (addEdge (addEdge (addNode (addNode (addNode (newFlowDiagram {})
      { label := "A" }).2 { label := "B" }).2 { label := "C" }).2
      { sourceId := "node_1", targetId := "node_2" }).2
      { sourceId := "node_2", targetId := "node_3" }).2
      ["node_2", "node_1"] [("node_1", 0), ("node_2", 1)]
      [({ id := "node_3", label := "C", type := some "default",
          position := some ⟨0, 0⟩, style := some {}, data := some [] }, 2)] =
      levelsBFS
      (addEdge (addEdge (addNode (addNode (addNode (newFlowDiagram {})
      { label := "A" }).2 { label := "B" }).2 { label := "C" }).2
      { sourceId := "node_1", targetId := "node_2" }).2
      { sourceId := "node_2", targetId := "node_3" }).2
      ["node_3", "node_2", "node_1"] [("node_1", 0), ("node_2", 1), ("node_3", 2)]
      [] := by
    rw [levelsBFS.eq_def]
    rfl
  have s4 : levelsBFS
      (addEdge (addEdge (addNode (addNode (addNode (newFlowDiagram {})
      { label := "A" }).2 { label := "B" }).2 { label := "C" }).2
      { sourceId := "node_1", targetId := "node_2" }).2
      { sourceId := "node_2", targetId := "node_3" }).2
      ["node_3", "node_2", "node_1"] [("node_1", 0), ("node_2", 1), ("node_3", 2)]
      [] = [("node_1", 0), ("node_2", 1), ("node_3", 2)] := by
    rw [levelsBFS.eq_def]
  have hlev : hierarchicalLevels (addEdge (addEdge (addNode (addNode (addNode (newFlowDiagram {})
      { label := "A" }).2 { label := "B" }).2 { label := "C" }).2
      { sourceId := "node_1", targetId := "node_2" }).2
      { sourceId := "node_2", targetId := "node_3" }).2 = [("node_1", 0), ("node_2", 1), ("node_3", 2)] :=
    h0.trans (s1.trans (s2.trans (s3.trans s4)))
  refine ⟨?_, ?_, ?_, ?_⟩
  · rw [hlev]
    rfl
  · rw [hlev]
    rfl
  · rw [hlev]
    rfl
  · unfold hierarchicalLayout
    rw [hlev]
    rfl

/-! ### C8: XML escaping in the SVG renderers -/

set_option maxRecDepth 100000 in
/-- C8 counterexample.  The legacy `toSVG` variant embeds node labels
without any escaping: rendering a one-node diagram whose label is `<x`
yields markup in which the text element's content is the raw string `<x` —
the output contains a raw `<` inside text content, contradicting the claim
for this renderer. -/
theorem legacy_svg_raw_label :
    containsSub "><x</text>".data
      (legacyToSVG (addNode (newFlowDiagram {}) { label := "<x" }).2
        { format := "svg" }).data = true := by decide

theorem escChar_chain (c : Char) :
    ((((if c = '&' then "&amp;".data else [c]).flatMap
        (fun ch => if ch = '<' then "&lt;".data else [ch])).flatMap
        (fun ch => if ch = '>' then "&gt;".data else [ch])).flatMap
        (fun ch => if ch = '"' then "&quot;".data else [ch])).flatMap
        (fun ch => if ch = '\'' then "&apos;".data else [ch]) = escChar c := by
  by_cases h1 : c = '&'
  · subst h1; rfl
  by_cases h2 : c = '<'
  · subst h2; rfl
  by_cases h3 : c = '>'
  · subst h3; rfl
  by_cases h4 : c = '"'
  · subst h4; rfl
  by_cases h5 : c = '\''
  · subst h5; rfl
  rw [if_neg h1]
  simp [escChar, h1, h2, h3, h4, h5]

/-- The five chained single-character replaces of `escapeXml` act as one
pass of the per-character table `escChar`. -/
theorem escapeXml_eq_flatMap (s : String) :
    escapeXml s = String.mk (s.data.flatMap escChar) := by
  unfold escapeXml replaceChar
  refine congrArg String.mk ?_
  show ((((s.data.flatMap (fun ch => if ch = '&' then "&amp;".data else [ch])).flatMap
      (fun ch => if ch = '<' then "&lt;".data else [ch])).flatMap
      (fun ch => if ch = '>' then "&gt;".data else [ch])).flatMap
      (fun ch => if ch = '"' then "&quot;".data else [ch])).flatMap
      (fun ch => if ch = '\'' then "&apos;".data else [ch]) =
    s.data.flatMap escChar
  induction s.data with
  | nil => rfl
  | cons c l ih =>
    simp only [List.flatMap_cons, List.flatMap_append]
    rw [ih, escChar_chain c]

theorem escapedOk_append_block (c : Char) (l : List Char) :
    escapedOk (escChar c ++ l) = escapedOk l := by
  by_cases h1 : c = '&'
  · subst h1
    show escapedOk ('&' :: 'a' :: 'm' :: 'p' :: ';' :: l) = escapedOk l
    rw [escapedOk.eq_def]
    rfl
  by_cases h2 : c = '<'
  · subst h2
    show escapedOk ('&' :: 'l' :: 't' :: ';' :: l) = escapedOk l
    rw [escapedOk.eq_def]
    rfl
  by_cases h3 : c = '>'
  · subst h3
    show escapedOk ('&' :: 'g' :: 't' :: ';' :: l) = escapedOk l
    rw [escapedOk.eq_def]
    rfl
  by_cases h4 : c = '"'
  · subst h4
    show escapedOk ('&' :: 'q' :: 'u' :: 'o' :: 't' :: ';' :: l) = escapedOk l
    rw [escapedOk.eq_def]
    rfl
  by_cases h5 : c = '\''
  · subst h5
    show escapedOk ('&' :: 'a' :: 'p' :: 'o' :: 's' :: ';' :: l) = escapedOk l
    rw [escapedOk.eq_def]
    rfl
  have hesc : escChar c = [c] := by simp [escChar, h1, h2, h3, h4, h5]
  rw [hesc, List.singleton_append, escapedOk.eq_def]
  simp only
  rw [if_neg (by simp [h2, h3, h4, h5]), if_neg h1]

/-- C8 amended.  The current `toSVG` variant passes every node and edge
label through `escapeXml` before embedding, and `escapeXml`'s output never
contains a raw `<`, `>`, `"` or `'` and contains `&` only as the start of
one of the five XML entities (the `escapedOk` scanner accepts it); the
legacy `toSVG` variant embeds labels unescaped (see the counterexample). -/
theorem escapeXml_output_escaped (s : String) :
    escapedOk (escapeXml s).data = true := by
  rw [escapeXml_eq_flatMap]
  show escapedOk (s.data.flatMap escChar) = true
  induction s.data with
  | nil =>
    rw [List.flatMap_nil, escapedOk.eq_def]
  | cons c l ih =>
    rw [List.flatMap_cons, escapedOk_append_block c _]
    exact ih

/-! ### C9: unrecognized-format parsing -/

/-- C9 counterexample.  The input `"42"` is neither JSON containing
nodes/edges nor the line-oriented text shape, yet `parseDiagramData` in the
default `auto` mode returns an **empty result** (no nodes, no edges, no
title) instead of signalling the unrecognized-format error: the JSON branch
falls through (the `'nodes' in parsed` test throws inside the `try`) and
`parseTextFormat` never fails. -/
theorem parse_auto_empty_not_error :
    parseDiagramData "42" ParseFormat.auto =
      Except.ok (ParseOut.fromText { nodes := [], edges := [], title := none }) := rfl

/-- C9 amended.  The explicit unrecognized-format error is raised only when
the text fallback is unavailable: with format `json`, a string that fails
`JSON.parse` produces the error; in `auto` mode the same string is handed
to the text parser, which always returns a (possibly empty) result instead
of an error. -/
theorem parse_unrecognized_split (s : String) (h : jsonParse s = none) :
    parseDiagramData s ParseFormat.json =
      Except.error
        "Unable to parse diagram data. Expected JSON with nodes/edges or text format." ∧
    parseDiagramData s ParseFormat.auto =
      Except.ok (ParseOut.fromText (parseTextFormat s)) := by
  unfold parseDiagramData
  rw [h]
  exact ⟨rfl, rfl⟩

theorem parse_unrecognized_split_witness :
    jsonParse "hello" = none ∧
    parseDiagramData "hello" ParseFormat.json =
      Except.error
        "Unable to parse diagram data. Expected JSON with nodes/edges or text format." :=
  ⟨rfl, (parse_unrecognized_split "hello" rfl).1⟩

/-! ### C10: NaN arrowheads on zero-length edges -/

set_option maxRecDepth 100000 in
/-- C10.  `addEdge` accepts a self-loop (both endpoints exist), and the SVG
edge routing then divides the direction vector by
`length = √(dx²+dy²) = 0`, so the arrowhead coordinates are `0/0 = NaN`
and the emitted polygon markup carries the non-numeric coordinate text
`NaN,NaN` instead of the edge being guarded or skipped. -/
theorem self_loop_arrowhead_nan :
    (addEdge (addNode (newFlowDiagram {})
      { label := "A", position := some ⟨100, 100⟩ }).2
      { sourceId := "node_1", targetId := "node_1" }).1 = Except.ok "edge_1" ∧
    jdiv (JsNum.num ⟨0, 1⟩) (jsqrt (JsNum.num ⟨0, 1⟩)) = JsNum.nan ∧
    containsSub "NaN,NaN".data
      (legacyToSVG
        (addEdge (addNode (newFlowDiagram {})
          { label := "A", position := some ⟨100, 100⟩ }).2
          { sourceId := "node_1", targetId := "node_1" }).2
        { format := "svg" }).data = true :=
  ⟨rfl, rfl, by decide⟩

end FlowSpec
